import Mathlib

/-!
Verification of the workflow graph execution engine of the `graph-ai` backend.

The definitions below are a shallow embedding of the Python source:

* `backend/usecases/execution.py` — `ExecutionUsecase`: graph building and
  validation (`_build_graph_context`, `_topological_order`,
  `_validate_connectivity`, `_collect_reachable`), the per-node execution loop
  (`run_execution`), input extraction (`_extract_input_value`), LLM node
  execution (`_execute_llm_node`) and run finalization
  (`execute_and_finalize`, `mark_execution_success`, `mark_execution_failed`);
* `backend/nodes/input.py`, `output.py`, `registry.py`, `web_search.py` — the
  node handlers and the handler registry.

Conventions of the embedding:

* Python `int` node ids are `Nat` (database primary keys; the algorithms only
  compare ids for equality), other Python ints are `Int`.
* Python dicts keyed by node id, which preserve insertion order, are embedded
  as the ordered list of their keys (`keys`) together with total functions
  giving the values; a dict lookup that would raise `KeyError` in Python is
  modelled by an explicit error value where it can occur.
* Fallible code returns `Except ExecError α`; a raised exception is the
  `.error` case.
* Outbound HTTP calls (LLM chat, web search) are modelled by oracle
  parameters whose outcome datatype covers the success and the transport
  failure cases distinguished by the `except` clauses of the source.
-/

namespace GraphAI

/-- Node types of a workflow.  `backend/enums/node.py` in the snapshot only
declares `INPUT`, `LLM`, `OUTPUT`, while `backend/nodes/registry.py`,
`backend/nodes/catalog.py`, the migration
`7f6f03f7f3a3_add_web_search_node_type.py` and the API tests all use
`NodeType.WEB_SEARCH` as a fourth member, so the enum is embedded with all
four members (`StrEnum` with `auto()` gives the lowercase member name as the
string value). -/
inductive NodeType
  | input
  | llm
  | web_search
  | output
deriving DecidableEq

/-- String value of a `NodeType` member (Python `StrEnum` + `auto()`). -/
def NodeType.str : NodeType → String
  | .input => "input"
  | .llm => "llm"
  | .web_search => "web_search"
  | .output => "output"

/-- Execution status.  `backend/enums/execution.py` is not part of the
snapshot; modelled from the spec: `status ∈ {RUNNING, SUCCESS, FAILED}`. -/
inductive ExecutionStatus
  | running
  | success
  | failed
deriving DecidableEq

/-- A Python value as stored in a node's open string-keyed `data` map.
Only the shapes inspected by the engine (`isinstance(x, int)`,
`isinstance(x, str)`) are distinguished; anything else is `other`. -/
inductive PyValue
  | int (i : Int)
  | str (s : String)
  | other
deriving DecidableEq

/-- A Python `dict[str, object]` (e.g., `node.data`, `input_data`) as an
association list in insertion order. -/
def NodeData : Type := List (String × PyValue)

/-- `d.get(key)`: first binding wins, `none` when the key is absent. -/
def NodeData.get (d : NodeData) (key : String) : Option PyValue :=
  (List.find? (fun p => p.1 == key) d).map (·.2)

/-- `d.get(key, default)`. -/
def NodeData.getD (d : NodeData) (key : String) (default : PyValue) : PyValue :=
  (NodeData.get d key).getD default

/-- A persisted workflow node (`models.Node`): identity, type and open data
map. -/
structure Node where
  id : Nat
  type : NodeType
  data : NodeData

/-- A persisted workflow edge (`models.Edge`): ordered pair of node ids. -/
structure Edge where
  source_node_id : Nat
  target_node_id : Nat
deriving DecidableEq

/-- The domain errors raised by the engine
(`backend/exceptions/execution.py`, `llm_provider.py`, `node.py`), plus
`keyError` for a Python `KeyError` on a dict lookup (reachable in
`run_execution` only if an id is missing from a map; the surrounding
`except Exception` in `execute_and_finalize` would catch it like any other
error). -/
inductive ExecError
  | graphValidation (message : String)
  | inputValidation (message : String)
  | llmConnection (message : String)
  | webSearchConnection (message : String)
  | keyError (key : Nat)
deriving DecidableEq

/-- `str(exc)` as stored into `Execution.error`.  `backend/exceptions/base.py`
is absent from the snapshot; modelled from the spec: the error's message is
"captured verbatim into the Execution's `error` field" (§7). -/
def ExecError.message : ExecError → String
  | .graphValidation m => m
  | .inputValidation m => m
  | .llmConnection m => m
  | .webSearchConnection m => m
  | .keyError k => s!"{k}"

/-! ### Kahn's algorithm (`ExecutionUsecase._topological_order`) -/

/-- The inner `for target_id in outbound[node_id]` loop of
`_topological_order`: decrement `seen_indegree[target_id]`; when it reaches
exactly zero, append the target to the queue (Python appends to the right of
the deque). -/
def processTargets : List Nat → List Nat → (Nat → Int) → List Nat × (Nat → Int)
  | [], queue, ind => (queue, ind)
  | t :: ts, queue, ind =>
      let ind2 : Nat → Int := fun k => if k = t then ind k - 1 else ind k
      if ind2 t = 0 then processTargets ts (queue ++ [t]) ind2
      else processTargets ts queue ind2

/-- Sum of the (clamped) indegrees over the dict keys, used as part of the
termination measure of the Kahn loop. -/
def sumInd (keys : List Nat) (ind : Nat → Int) : Nat :=
  (keys.map fun k => (ind k).toNat).sum

theorem sumInd_le_of_pointwise (keys : List Nat) (ind ind2 : Nat → Int)
    (h : ∀ k, ind2 k ≤ ind k) : sumInd keys ind2 ≤ sumInd keys ind := by
  unfold sumInd
  apply List.sum_le_sum
  intro k _
  exact Int.toNat_le_toNat (h k)

theorem sumInd_lt_of_decrement (keys : List Nat) (ind : Nat → Int) (t : Nat)
    (hmem : t ∈ keys) (hpos : 0 < ind t) :
    sumInd keys (fun k => if k = t then ind k - 1 else ind k) + 1 ≤ sumInd keys ind := by
  induction keys with
  | nil => simp at hmem
  | cons a keys ih =>
    rcases List.mem_cons.mp hmem with heq | hmem2
    · subst heq
      simp only [sumInd, List.map_cons, List.sum_cons, if_true]
      have h1 : (ind t - 1).toNat + 1 ≤ (ind t).toNat := by omega
      have h2 : sumInd keys (fun k => if k = t then ind k - 1 else ind k) ≤ sumInd keys ind := by
        apply sumInd_le_of_pointwise
        intro k
        by_cases hk : k = t
        · subst hk; rw [if_pos rfl]; omega
        · rw [if_neg hk]
      simp only [sumInd] at h2
      omega
    · have h2 := ih hmem2
      simp only [sumInd, List.map_cons, List.sum_cons] at h2 ⊢
      by_cases ha : a = t
      · rw [if_pos ha]
        have : (ind a - 1).toNat ≤ (ind a).toNat := by omega
        omega
      · rw [if_neg ha]
        omega

theorem processTargets_measure (keys : List Nat) :
    ∀ (ts queue : List Nat) (ind : Nat → Int), (∀ t ∈ ts, t ∈ keys) →
      (processTargets ts queue ind).1.length + sumInd keys (processTargets ts queue ind).2
        ≤ queue.length + sumInd keys ind := by
  intro ts
  induction ts with
  | nil => intro queue ind _; simp [processTargets]
  | cons t ts ih =>
    intro queue ind h
    have htk : t ∈ keys := h t (List.mem_cons_self t ts)
    have hts : ∀ u ∈ ts, u ∈ keys := fun u hu => h u (List.mem_cons_of_mem t hu)
    simp only [processTargets, if_true]
    by_cases h0 : ind t - 1 = 0
    · rw [if_pos h0]
      have h1 := ih (queue ++ [t]) (fun k => if k = t then ind k - 1 else ind k) hts
      have h2 : sumInd keys (fun k => if k = t then ind k - 1 else ind k) + 1 ≤ sumInd keys ind := by
        apply sumInd_lt_of_decrement keys ind t htk
        omega
      simp only [List.length_append, List.length_cons, List.length_nil] at h1 ⊢
      omega
    · rw [if_neg h0]
      have h1 := ih queue (fun k => if k = t then ind k - 1 else ind k) hts
      have h2 : sumInd keys (fun k => if k = t then ind k - 1 else ind k) ≤ sumInd keys ind := by
        apply sumInd_le_of_pointwise
        intro k
        by_cases hk : k = t
        · subst hk; rw [if_pos rfl]; omega
        · rw [if_neg hk]
      omega

/-- The `while queue:` loop of `_topological_order`: pop the left end of the
queue, append the node to the order, then process its outbound targets.
The hypothesis `hout` reflects that every value list of the Python `outbound`
dict only holds keys of the dict (otherwise the source would raise
`KeyError` on `seen_indegree[target_id]`). -/
def kahnLoop (keys : List Nat) (outbound : Nat → List Nat)
    (hout : ∀ k, ∀ t ∈ outbound k, t ∈ keys) :
    List Nat → List Nat → (Nat → Int) → List Nat
  | [], order, _ => order
  | v :: rest, order, ind =>
      kahnLoop keys outbound hout (processTargets (outbound v) rest ind).1
        (order ++ [v]) (processTargets (outbound v) rest ind).2
termination_by queue _ ind => queue.length + sumInd keys ind
decreasing_by
  have h := processTargets_measure keys (outbound t) ts ind (hout t)
  simp only [List.length_cons]
  omega

/-- `ExecutionUsecase._topological_order`: seed the queue with the
zero-indegree keys in dict (= insertion) order, run the loop, and fail if the
order misses a node (cycle). -/
def topological_order (keys : List Nat) (indegree : Nat → Int)
    (outbound : Nat → List Nat) (hout : ∀ k, ∀ t ∈ outbound k, t ∈ keys) :
    Except ExecError (List Nat) :=
  let order := kahnLoop keys outbound hout
    (keys.filter fun k => indegree k == 0) [] indegree
  if order.length ≠ keys.length then
    .error (.graphValidation "Workflow graph must be acyclic")
  else
    .ok order

/-! ### Adjacency maps (the edge loop of `_build_graph_context`) -/

/-- The three adjacency dicts built by `_build_graph_context`, with the node
ids as keys: `outbound`, `inbound` (adjacency lists in edge order) and
`indegree`. -/
structure Adjacency where
  outbound : Nat → List Nat
  inbound : Nat → List Nat
  indegree : Nat → Int

/-- One iteration of the `for edge in edges:` loop:
`outbound[source_id].append(target_id)`, `inbound[target_id].append(source_id)`,
`indegree[target_id] += 1`. -/
def addEdge (adj : Adjacency) (e : Edge) : Adjacency where
  outbound := fun k =>
    if k = e.source_node_id then adj.outbound k ++ [e.target_node_id] else adj.outbound k
  inbound := fun k =>
    if k = e.target_node_id then adj.inbound k ++ [e.source_node_id] else adj.inbound k
  indegree := fun k =>
    if k = e.target_node_id then adj.indegree k + 1 else adj.indegree k

/-- Initial adjacency dicts: `{node.id: [] for node in nodes}` and
`{node.id: 0 for node in nodes}` (empty lists / zero everywhere). -/
def emptyAdjacency : Adjacency where
  outbound := fun _ => []
  inbound := fun _ => []
  indegree := fun _ => 0

/-- The full edge loop of `_build_graph_context` (the per-edge node-reference
check is `edgesValid` below; any failing edge aborts the whole build, so the
check and the fold can be separated without changing the observable result). -/
def buildAdjacency (edges : List Edge) : Adjacency :=
  edges.foldl addEdge emptyAdjacency

/-- The per-edge membership check of the edge loop:
`source_id not in nodes_by_id or target_id not in nodes_by_id` raises. -/
def edgesValid (keys : List Nat) (edges : List Edge) : Bool :=
  edges.all fun e => keys.contains e.source_node_id && keys.contains e.target_node_id

/-- Closed form of the `outbound` adjacency dict: the targets of the edges
with the given source, in edge order. -/
def outboundOf (edges : List Edge) (k : Nat) : List Nat :=
  (edges.filter fun e => e.source_node_id == k).map Edge.target_node_id

/-- Closed form of the `inbound` adjacency dict: the sources of the edges
with the given target, in edge order. -/
def inboundOf (edges : List Edge) (k : Nat) : List Nat :=
  (edges.filter fun e => e.target_node_id == k).map Edge.source_node_id

theorem foldl_addEdge_outbound (edges : List Edge) :
    ∀ (adj : Adjacency) (k : Nat),
      (edges.foldl addEdge adj).outbound k = adj.outbound k ++ outboundOf edges k := by
  induction edges with
  | nil => intro adj k; simp [outboundOf]
  | cons e es ih =>
    intro adj k
    rw [List.foldl_cons, ih]
    simp only [outboundOf, List.filter_cons]
    by_cases hk : e.source_node_id = k
    · simp [addEdge, hk, beq_iff_eq]
    · have hk2 : (e.source_node_id == k) = false := by simp [hk]
      have hk3 : ¬(k = e.source_node_id) := fun h => hk h.symm
      simp [addEdge, hk2, hk3, outboundOf]

theorem foldl_addEdge_inbound (edges : List Edge) :
    ∀ (adj : Adjacency) (k : Nat),
      (edges.foldl addEdge adj).inbound k = adj.inbound k ++ inboundOf edges k := by
  induction edges with
  | nil => intro adj k; simp [inboundOf]
  | cons e es ih =>
    intro adj k
    rw [List.foldl_cons, ih]
    simp only [inboundOf, List.filter_cons]
    by_cases hk : e.target_node_id = k
    · simp [addEdge, hk, beq_iff_eq]
    · have hk2 : (e.target_node_id == k) = false := by simp [hk]
      have hk3 : ¬(k = e.target_node_id) := fun h => hk h.symm
      simp [addEdge, hk2, hk3, inboundOf]

theorem foldl_addEdge_indegree (edges : List Edge) :
    ∀ (adj : Adjacency) (k : Nat),
      (edges.foldl addEdge adj).indegree k = adj.indegree k + (inboundOf edges k).length := by
  induction edges with
  | nil => intro adj k; simp [inboundOf]
  | cons e es ih =>
    intro adj k
    rw [List.foldl_cons, ih]
    simp only [inboundOf, List.filter_cons]
    by_cases hk : e.target_node_id = k
    · simp only [hk, beq_self_eq_true, if_true, List.map_cons, List.length_cons]
      have : (addEdge adj e).indegree k = adj.indegree k + 1 := by
        simp [addEdge, hk]
      rw [this]
      push_cast
      ring
    · have hk2 : (e.target_node_id == k) = false := by simp [hk]
      have hk3 : ¬(k = e.target_node_id) := fun h => hk h.symm
      simp [addEdge, hk2, hk3, inboundOf]

theorem buildAdjacency_outbound (edges : List Edge) (k : Nat) :
    (buildAdjacency edges).outbound k = outboundOf edges k := by
  rw [buildAdjacency, foldl_addEdge_outbound]
  simp [emptyAdjacency]

theorem buildAdjacency_inbound (edges : List Edge) (k : Nat) :
    (buildAdjacency edges).inbound k = inboundOf edges k := by
  rw [buildAdjacency, foldl_addEdge_inbound]
  simp [emptyAdjacency]

theorem buildAdjacency_indegree (edges : List Edge) (k : Nat) :
    (buildAdjacency edges).indegree k = (inboundOf edges k).length := by
  rw [buildAdjacency, foldl_addEdge_indegree]
  simp [emptyAdjacency]

theorem mem_outboundOf {edges : List Edge} {k t : Nat} :
    t ∈ outboundOf edges k ↔ ∃ e ∈ edges, e.source_node_id = k ∧ e.target_node_id = t := by
  simp only [outboundOf, List.mem_map, List.mem_filter, beq_iff_eq]
  constructor
  · rintro ⟨e, ⟨he, hsrc⟩, htgt⟩
    exact ⟨e, he, hsrc, htgt⟩
  · rintro ⟨e, he, hsrc, htgt⟩
    exact ⟨e, ⟨he, hsrc⟩, htgt⟩

theorem mem_inboundOf {edges : List Edge} {k t : Nat} :
    t ∈ inboundOf edges k ↔ ∃ e ∈ edges, e.target_node_id = k ∧ e.source_node_id = t := by
  simp only [inboundOf, List.mem_map, List.mem_filter, beq_iff_eq]
  constructor
  · rintro ⟨e, ⟨he, htgt⟩, hsrc⟩
    exact ⟨e, he, htgt, hsrc⟩
  · rintro ⟨e, he, htgt, hsrc⟩
    exact ⟨e, ⟨he, htgt⟩, hsrc⟩

theorem edgesValid_sound {keys : List Nat} {edges : List Edge}
    (h : edgesValid keys edges = true) :
    ∀ e ∈ edges, e.source_node_id ∈ keys ∧ e.target_node_id ∈ keys := by
  intro e he
  have := List.all_eq_true.mp h e he
  rw [Bool.and_eq_true] at this
  exact ⟨List.mem_of_elem_eq_true this.1, List.mem_of_elem_eq_true this.2⟩

theorem outbound_closure {keys : List Nat} {edges : List Edge}
    (h : edgesValid keys edges = true) :
    ∀ k, ∀ t ∈ (buildAdjacency edges).outbound k, t ∈ keys := by
  intro k t ht
  rw [buildAdjacency_outbound] at ht
  obtain ⟨e, he, _, htgt⟩ := mem_outboundOf.mp ht
  exact htgt ▸ (edgesValid_sound h e he).2

theorem inbound_closure {keys : List Nat} {edges : List Edge}
    (h : edgesValid keys edges = true) :
    ∀ k, ∀ t ∈ (buildAdjacency edges).inbound k, t ∈ keys := by
  intro k t ht
  rw [buildAdjacency_inbound] at ht
  obtain ⟨e, he, _, hsrc⟩ := mem_inboundOf.mp ht
  exact hsrc ▸ (edgesValid_sound h e he).1

/-! ### Reachability (`ExecutionUsecase._collect_reachable`) -/

theorem length_filter_le_of_imp {α : Type} (l : List α) (p q : α → Bool)
    (h : ∀ x ∈ l, p x = true → q x = true) :
    (l.filter p).length ≤ (l.filter q).length := by
  induction l with
  | nil => simp
  | cons a l ih =>
    have ih2 := ih (fun x hx => h x (List.mem_cons_of_mem a hx))
    have ha := h a (List.mem_cons_self a l)
    by_cases hpa : p a = true
    · rw [List.filter_cons_of_pos hpa, List.filter_cons_of_pos (ha hpa)]
      simpa using ih2
    · rw [List.filter_cons_of_neg hpa]
      by_cases hqa : q a = true
      · rw [List.filter_cons_of_pos hqa]
        simp only [List.length_cons]
        omega
      · rw [List.filter_cons_of_neg hqa]
        exact ih2

theorem length_filter_lt_of_witness {α : Type} (p q : α → Bool) :
    ∀ (l : List α) (v : α), v ∈ l → q v = true → p v = false →
      (∀ x ∈ l, p x = true → q x = true) →
      (l.filter p).length < (l.filter q).length := by
  intro l
  induction l with
  | nil => intro v hv _ _ _; simp at hv
  | cons a l ih =>
    intro v hv hqv hpv h
    have hrest : ∀ x ∈ l, p x = true → q x = true :=
      fun x hx => h x (List.mem_cons_of_mem a hx)
    rcases List.mem_cons.mp hv with heq | hmem
    · subst heq
      rw [List.filter_cons_of_neg (by simp [hpv]), List.filter_cons_of_pos hqv]
      simp only [List.length_cons]
      exact Nat.lt_succ_of_le (length_filter_le_of_imp l p q hrest)
    · have ihl := ih v hmem hqv hpv hrest
      by_cases hpa : p a = true
      · rw [List.filter_cons_of_pos hpa,
          List.filter_cons_of_pos (h a (List.mem_cons_self a l) hpa)]
        simpa using ihl
      · rw [List.filter_cons_of_neg hpa]
        by_cases hqa : q a = true
        · rw [List.filter_cons_of_pos hqa]
          simp only [List.length_cons]
          omega
        · rw [List.filter_cons_of_neg hqa]
          exact ihl

/-- The `while stack:` loop of `_collect_reachable`.  The Python stack is a
list popped from its right end; the embedding keeps the stack top at the
list head, so extending with an adjacency list pushes it reversed.  The
returned `visited` is a Python `set`, consumed only through membership, so
it is embedded as the list of elements in first-visit order.  The hypothesis
`hadj` reflects that the adjacency dict's value lists only hold keys of the
dict (otherwise `adjacency[node_id]` would raise `KeyError` in the source). -/
def collectLoop (keys : List Nat) (adjacency : Nat → List Nat)
    (hadj : ∀ k, ∀ t ∈ adjacency k, t ∈ keys) :
    List Nat → List Nat → List Nat
  | [], visited => visited
  | node_id :: rest, visited =>
      if node_id ∈ visited then
        collectLoop keys adjacency hadj rest visited
      else
        collectLoop keys adjacency hadj ((adjacency node_id).reverse ++ rest)
          (visited ++ [node_id])
termination_by stack visited =>
  ((stack.filter fun v => !keys.contains v).length
      + (keys.dedup.filter fun k => !visited.contains k).length,
    stack.length)
decreasing_by
  · by_cases hk : node_id ∈ keys
    · apply Prod.Lex.right'
      · have heq : ((node_id :: rest).filter fun v => !keys.contains v)
            = rest.filter fun v => !keys.contains v := by
          rw [List.filter_cons_of_neg]
          simp [hk]
        rw [heq]
      · simp
    · apply Prod.Lex.left
      have heq : ((node_id :: rest).filter fun v => !keys.contains v)
          = node_id :: rest.filter fun v => !keys.contains v := by
        rw [List.filter_cons_of_pos]
        simp [hk]
      rw [heq]
      simp only [List.length_cons]
      omega
  · apply Prod.Lex.left
    have hrev : (((adjacency node_id).reverse ++ rest).filter fun v => !keys.contains v)
        = rest.filter fun v => !keys.contains v := by
      rw [List.filter_append]
      have hnil : ((adjacency node_id).reverse.filter fun v => !keys.contains v) = [] := by
        rw [List.filter_eq_nil_iff]
        intro a ha
        have hmem : a ∈ adjacency node_id := List.mem_reverse.mp ha
        simp [hadj node_id a hmem]
      rw [hnil, List.nil_append]
    rw [hrev]
    have hmono : (keys.dedup.filter fun k => !(visited ++ [node_id]).contains k).length
        ≤ (keys.dedup.filter fun k => !visited.contains k).length := by
      apply length_filter_le_of_imp
      intro x _ hx
      simp only [Bool.not_eq_true', List.contains_eq_any_beq, List.any_append] at hx ⊢
      rcases Bool.or_eq_false_iff.mp hx with ⟨h1, _⟩
      exact h1
    by_cases hk : node_id ∈ keys
    · have hstrict : (keys.dedup.filter fun k => !(visited ++ [node_id]).contains k).length
          < (keys.dedup.filter fun k => !visited.contains k).length := by
        apply length_filter_lt_of_witness _ _ _ node_id (List.mem_dedup.mpr hk)
        · simp only [Bool.not_eq_true']
          rw [← Bool.not_eq_true]
          intro hc
          exact ‹node_id ∉ visited› (List.mem_of_elem_eq_true hc)
        · show (!(visited ++ [node_id]).contains node_id) = false
          simp
        · intro x _ hx
          simp only [Bool.not_eq_true', List.contains_eq_any_beq, List.any_append] at hx ⊢
          rcases Bool.or_eq_false_iff.mp hx with ⟨h1, _⟩
          exact h1
      have hhead : ((node_id :: rest).filter fun v => !keys.contains v)
          = rest.filter fun v => !keys.contains v := by
        rw [List.filter_cons_of_neg]
        simp [hk]
      rw [hhead]
      omega
    · have hhead : ((node_id :: rest).filter fun v => !keys.contains v)
          = node_id :: rest.filter fun v => !keys.contains v := by
        rw [List.filter_cons_of_pos]
        simp [hk]
      rw [hhead]
      simp only [List.length_cons]
      omega

/-- `ExecutionUsecase._collect_reachable`: DFS from the start node over the
given adjacency dict, returning the visited set. -/
def collect_reachable (keys : List Nat) (adjacency : Nat → List Nat)
    (hadj : ∀ k, ∀ t ∈ adjacency k, t ∈ keys) (start_node_id : Nat) : List Nat :=
  collectLoop keys adjacency hadj [start_node_id] []

/-- `ExecutionUsecase._validate_connectivity`: every node id must be in the
forward-reachable set of the input node and in the backward-reachable set of
the output node.  The source iterates over `nodes_by_id` and raises at the
first offending node; since the error message is a constant, this is
observationally the all-quantified check. -/
def validate_connectivity (input_node_id output_node_id : Nat)
    (outbound inbound : Nat → List Nat) (keys : List Nat)
    (houtb : ∀ k, ∀ t ∈ outbound k, t ∈ keys)
    (hinb : ∀ k, ∀ t ∈ inbound k, t ∈ keys) : Except ExecError Unit :=
  let reachable_from_input := collect_reachable keys outbound houtb input_node_id
  let reaches_output := collect_reachable keys inbound hinb output_node_id
  if keys.all fun node_id =>
      reachable_from_input.contains node_id && reaches_output.contains node_id then
    .ok ()
  else
    .error (.graphValidation "All workflow nodes must belong to input->output path")

/-! ### Graph building (`ExecutionUsecase._build_graph_context`) -/

/-- The validated graph context (the dict returned by
`_build_graph_context`). -/
structure GraphContext where
  input_node_id : Nat
  output_node_id : Nat
  nodes_by_id : Nat → Option Node
  outbound : Nat → List Nat
  inbound : Nat → List Nat
  topological_order : List Nat

/-- `nodes_by_id = {node.id: node for node in nodes}`: on duplicate ids the
later node wins, hence the lookup over the reversed list. -/
def nodesById (nodes : List Node) (k : Nat) : Option Node :=
  nodes.reverse.find? fun node => node.id == k

/-- `ExecutionUsecase._build_graph_context`: validate the node set (non-empty,
exactly one input, exactly one output), check every edge references known
nodes while building the adjacency dicts, compute the topological order
(failing on a cycle), validate connectivity, and return the context.  Any
validation failure raises an `ExecutionGraphValidationError`, so no partial
context is ever returned. -/
def build_graph_context (nodes : List Node) (edges : List Edge) :
    Except ExecError GraphContext :=
  if nodes.isEmpty then
    .error (.graphValidation "Workflow must contain at least one node")
  else
    if h1 : (nodes.filter fun node => node.type == NodeType.input).length ≠ 1 then
      .error (.graphValidation "Workflow must contain exactly one input node")
    else
      if h2 : (nodes.filter fun node => node.type == NodeType.output).length ≠ 1 then
        .error (.graphValidation "Workflow must contain exactly one output node")
      else
        if hv : edgesValid (nodes.map Node.id) edges = true then
          match topological_order (nodes.map Node.id) (buildAdjacency edges).indegree
              (buildAdjacency edges).outbound (outbound_closure hv) with
          | .error e => .error e
          | .ok order =>
            match validate_connectivity
                ((nodes.filter fun node => node.type == NodeType.input).head (by
                  intro hnil
                  rw [hnil] at h1
                  simp at h1)).id
                ((nodes.filter fun node => node.type == NodeType.output).head (by
                  intro hnil
                  rw [hnil] at h2
                  simp at h2)).id
                (buildAdjacency edges).outbound (buildAdjacency edges).inbound
                (nodes.map Node.id)
                (outbound_closure hv) (inbound_closure hv) with
            | .error e => .error e
            | .ok _ =>
              .ok { input_node_id := ((nodes.filter fun node =>
                      node.type == NodeType.input).head (by
                        intro hnil
                        rw [hnil] at h1
                        simp at h1)).id
                    output_node_id := ((nodes.filter fun node =>
                      node.type == NodeType.output).head (by
                        intro hnil
                        rw [hnil] at h2
                        simp at h2)).id
                    nodes_by_id := nodesById nodes
                    outbound := (buildAdjacency edges).outbound
                    inbound := (buildAdjacency edges).inbound
                    topological_order := order }
        else
          .error (.graphValidation "Workflow contains edge with missing node reference")

/-! ### Input payload extraction (`ExecutionUsecase._extract_input_value`) -/

/-- `_extract_input_value`: `input_data` must be present and its `"value"`
entry must be a string. -/
def extract_input_value (input_data : Option NodeData) : Except ExecError String :=
  match input_data with
  | none => .error (.inputValidation "Execution input payload is required")
  | some d =>
      match NodeData.get d "value" with
      | some (.str value) => .ok value
      | _ => .error (.inputValidation "Execution input_data.value must be a string")

/-! ### LLM node execution (`ExecutionUsecase._execute_llm_node`) -/

/-- A chat message (`schemas.ChatMessage`). -/
structure ChatMessage where
  role : String
  content : String
deriving DecidableEq

/-- A persisted LLM provider row as far as the engine reads it
(`models.LLMProvider`: `id`, owner `user_id`). -/
structure ProviderRow where
  id : Int
  user_id : Nat
deriving DecidableEq

/-- Outcome of the single outbound `chat` HTTP call, covering the `except`
clauses of `_execute_llm_node`: success, `httpx.TimeoutException`,
`httpx.HTTPStatusError` (with status code and response body) and any other
`httpx.HTTPError`. -/
inductive ChatOutcome
  | success (content : String)
  | timeout
  | statusError (status_code : Nat) (body : String)
  | transportError
deriving DecidableEq

/-- `LLMProviderRepository.get_by(id=..., user_id=...)`: first row matching
both filters. -/
def providerGetBy (providers : List ProviderRow) (id : Int) (user_id : Nat) :
    Option ProviderRow :=
  providers.find? fun p => p.id == id && p.user_id == user_id

/-- `ExecutionUsecase._execute_llm_node`: validate `llm_provider_id`
(a positive `int`), `model` (non-empty `str`), `system_prompt` (`str`,
defaulting to `""` when absent), look the provider up scoped to the workflow
owner, then issue one chat call and map transport failures to
`LLMProviderConnectionError` (the `httpx.HTTPStatusError` message carries at
most 300 characters of the stripped response body; the bare `httpx.HTTPError`
case uses the exception class's default message). -/
def execute_llm_node (providers : List ProviderRow)
    (chat : Int → String → List ChatMessage → ChatOutcome)
    (workflow_owner_id : Nat) (node_data : NodeData)
    (parent_values : List String) : Except ExecError String :=
  match NodeData.get node_data "llm_provider_id" with
  | some (.int llm_provider_id) =>
      if llm_provider_id ≤ 0 then
        .error (.graphValidation "LLM node requires a valid llm_provider_id")
      else
        match NodeData.get node_data "model" with
        | some (.str model) =>
            if model = "" then
              .error (.graphValidation "LLM node requires a non-empty model")
            else
              match NodeData.getD node_data "system_prompt" (.str "") with
              | .str system_prompt_value =>
                  match providerGetBy providers llm_provider_id workflow_owner_id with
                  | none =>
                      .error (.graphValidation "Referenced LLM provider does not exist")
                  | some _ =>
                      match chat llm_provider_id model
                          [⟨"system", system_prompt_value⟩,
                            ⟨"user", String.intercalate "\n" parent_values⟩] with
                      | .success content => .ok content
                      | .timeout =>
                          .error (.llmConnection
                            "LLM provider request timed out while running execution")
                      | .statusError status_code body =>
                          let detail := body.trim
                          let message := s!"LLM provider returned {status_code}"
                          if detail ≠ "" then
                            let excerpt := detail.take 300
                            .error (.llmConnection s!"{message}: {excerpt}")
                          else
                            .error (.llmConnection message)
                      | .transportError =>
                          .error (.llmConnection "LLM provider is unreachable")
              | _ =>
                  .error (.graphValidation "LLM node field system_prompt must be a string")
        | _ => .error (.graphValidation "LLM node requires a non-empty model")
  | _ => .error (.graphValidation "LLM node requires a valid llm_provider_id")

/-- The configuration checks of `_execute_llm_node` that precede the chat
call: `llm_provider_id` is a positive `int`, `model` a non-empty `str`,
`system_prompt` is a `str` after defaulting to `""` when absent, and the
provider lookup scoped to the workflow owner succeeds. -/
def llmNodeConfigAccepted (providers : List ProviderRow) (workflow_owner_id : Nat)
    (node_data : NodeData) : Prop :=
  ∃ i : Int, NodeData.get node_data "llm_provider_id" = some (.int i) ∧ 0 < i
    ∧ (∃ m : String, NodeData.get node_data "model" = some (.str m) ∧ m ≠ "")
    ∧ (∃ sp : String, NodeData.getD node_data "system_prompt" (.str "") = .str sp)
    ∧ ∃ p : ProviderRow, providerGetBy providers i workflow_owner_id = some p

/-! ### The per-node execution loop (`ExecutionUsecase.run_execution`) -/

/-- The list comprehension
`[outputs_by_node[parent_id] for parent_id in inbound[node_id]]`; a missing
key raises `KeyError` (as in Python, at the first missing parent). -/
def gatherParents (outputs_by_node : Nat → Option String) :
    List Nat → Except ExecError (List String)
  | [] => .ok []
  | parent_id :: rest =>
      match outputs_by_node parent_id with
      | none => .error (.keyError parent_id)
      | some value =>
          match gatherParents outputs_by_node rest with
          | .error e => .error e
          | .ok values => .ok (value :: values)

/-- The `for node_id in topological_order:` loop of `run_execution`:
INPUT stores the run's input value; any other node gathers its parents'
outputs (failing when there are none), then LLM dispatches to
`_execute_llm_node`, OUTPUT joins the parent values with a newline, and any
other node type fails with `Unsupported node type`. -/
def runLoop (providers : List ProviderRow)
    (chat : Int → String → List ChatMessage → ChatOutcome)
    (workflow_owner_id : Nat) (nodes_by_id : Nat → Option Node)
    (inbound : Nat → List Nat) (input_value : String) :
    List Nat → (Nat → Option String) → Except ExecError (Nat → Option String)
  | [], outputs_by_node => .ok outputs_by_node
  | node_id :: rest, outputs_by_node =>
      match nodes_by_id node_id with
      | none => .error (.keyError node_id)
      | some node =>
          if node.type = NodeType.input then
            runLoop providers chat workflow_owner_id nodes_by_id inbound input_value
              rest (fun k => if k = node_id then some input_value else outputs_by_node k)
          else
            match gatherParents outputs_by_node (inbound node_id) with
            | .error e => .error e
            | .ok parent_values =>
                if parent_values.isEmpty then
                  .error (.graphValidation s!"Node {node_id} does not have input value")
                else if node.type = NodeType.llm then
                  match execute_llm_node providers chat workflow_owner_id
                      node.data parent_values with
                  | .error e => .error e
                  | .ok value =>
                      runLoop providers chat workflow_owner_id nodes_by_id inbound
                        input_value rest
                        (fun k => if k = node_id then some value else outputs_by_node k)
                else if node.type = NodeType.output then
                  runLoop providers chat workflow_owner_id nodes_by_id inbound
                    input_value rest
                    (fun k => if k = node_id then
                        some (String.intercalate "\n" parent_values)
                      else outputs_by_node k)
                else
                  .error (.graphValidation s!"Unsupported node type: {node.type.str}")

/-- The output payload `{"value": ...}` returned by `run_execution`
(`schemas.ExecutionOutputPayload`). -/
structure OutputData where
  value : String
deriving DecidableEq

/-- `ExecutionUsecase.run_execution`, from the point where the node/edge
snapshot has been fetched: build the graph context, extract the input value,
walk the topological order and wrap the output node's stored value.  The
repository/workflow lookups that precede this in the source only produce
not-found errors and are outside the engine's graph logic. -/
def run_execution (providers : List ProviderRow)
    (chat : Int → String → List ChatMessage → ChatOutcome)
    (workflow_owner_id : Nat) (nodes : List Node) (edges : List Edge)
    (input_data : Option NodeData) : Except ExecError OutputData :=
  match build_graph_context nodes edges with
  | .error e => .error e
  | .ok graph =>
      match extract_input_value input_data with
      | .error e => .error e
      | .ok input_value =>
          match runLoop providers chat workflow_owner_id graph.nodes_by_id
              graph.inbound input_value graph.topological_order (fun _ => none) with
          | .error e => .error e
          | .ok outputs_by_node =>
              match outputs_by_node graph.output_node_id with
              | none => .error (.keyError graph.output_node_id)
              | some value => .ok { value := value }

/-! ### Finalization (`execute_and_finalize`, `mark_execution_*`) -/

/-- The mutable fields of an `Execution` row touched by finalization. -/
structure ExecutionRecord where
  status : ExecutionStatus
  output_data : Option OutputData
  error : Option String
  finished_at : Option Nat

/-- `ExecutionUsecase.mark_execution_success`: persist SUCCESS, the output
payload, clear the error, set `finished_at`. -/
def mark_execution_success (record : ExecutionRecord) (output_data : OutputData)
    (now : Nat) : ExecutionRecord :=
  { record with
      status := ExecutionStatus.success
      output_data := some output_data
      error := none
      finished_at := some now }

/-- `ExecutionUsecase.mark_execution_failed`: persist FAILED, the error
string, set `finished_at`. -/
def mark_execution_failed (record : ExecutionRecord) (error : String)
    (now : Nat) : ExecutionRecord :=
  { record with
      status := ExecutionStatus.failed
      error := some error
      finished_at := some now }

/-- `ExecutionUsecase.execute_and_finalize`: run, then persist the terminal
status; on failure the error string is `str(exc)` and the exception is
re-raised (the second component). -/
def execute_and_finalize (run_result : Except ExecError OutputData)
    (record : ExecutionRecord) (now : Nat) : ExecutionRecord × Option ExecError :=
  match run_result with
  | .ok output_data => (mark_execution_success record output_data now, none)
  | .error exc => (mark_execution_failed record (ExecError.message exc) now, some exc)

/-! ### Node handlers and the registry (`backend/nodes/`) -/

/-- `nodes.base.NodeExecutionContext`: the per-node execution context (the
database session is not part of the pure embedding). -/
structure NodeExecutionContext where
  workflow_owner_id : Nat
  node_data : NodeData
  parent_values : List String
  input_value : String

/-- `nodes.input.InputNodeHandler.execute`: return the execution input
value. -/
def inputHandlerExecute (context : NodeExecutionContext) : String :=
  context.input_value

/-- `nodes.output.OutputNodeHandler.execute`: join upstream values into the
final output. -/
def outputHandlerExecute (context : NodeExecutionContext) : String :=
  String.intercalate "\n" context.parent_values

/-- The four handler classes instantiated by `NodeHandlerRegistry.__init__`. -/
inductive HandlerKind
  | inputHandler
  | llmHandler
  | webSearchHandler
  | outputHandler
deriving DecidableEq

/-- The `self._handlers` dict of `nodes.registry.NodeHandlerRegistry`:
the fixed four-entry mapping from node type to handler instance, built once
at construction.  `NodeHandlerRegistry.execute` does
`self._handlers.get(node_type)` and raises `Unsupported node type` only when
the lookup misses, which cannot happen for the four enum members. -/
def registryHandlers : NodeType → Option HandlerKind
  | NodeType.input => some HandlerKind.inputHandler
  | NodeType.llm => some HandlerKind.llmHandler
  | NodeType.web_search => some HandlerKind.webSearchHandler
  | NodeType.output => some HandlerKind.outputHandler

/-! ### Web search node handler (`backend/nodes/web_search.py`) -/

/-- The JSON payload returned by the search provider.  Object keys are
strings, which is why `_to_str_key_dict`'s key filter keeps every field in
this embedding. -/
inductive Json
  | str (s : String)
  | int (i : Int)
  | arr (items : List Json)
  | obj (fields : List (String × Json))
  | null

/-- `payload.get(key)` on a JSON object; `none` on a missing key or a
non-object. -/
def Json.get : Json → String → Option Json
  | .obj fields, key => (fields.find? fun p => p.1 == key).map (·.2)
  | _, _ => none

/-- `WebSearchNodeHandler._to_str_key_dict`: keep the value only when it is a
dict, restricted to its string keys (all keys are strings in this JSON
model, so the restriction keeps every field). -/
def to_str_key_dict : Json → Option Json
  | .obj fields => some (.obj fields)
  | _ => none

theorem sizeOf_to_str_key_dict {j d : Json} (h : to_str_key_dict j = some d) :
    sizeOf d = sizeOf j := by
  cases j <;> simp [to_str_key_dict] at h
  rw [← h]

theorem sum_sizeOf_filterMap_le (l : List Json) :
    ((l.filterMap to_str_key_dict).map sizeOf).sum ≤ (l.map sizeOf).sum := by
  induction l with
  | nil => simp
  | cons j js ih =>
    rw [List.filterMap_cons]
    cases h : to_str_key_dict j with
    | none =>
        simp only [List.map_cons, List.sum_cons]
        omega
    | some d =>
        simp only [List.map_cons, List.sum_cons, sizeOf_to_str_key_dict h]
        omega

theorem Json.sizeOf_pos (j : Json) : 0 < sizeOf j := by
  cases j <;> simp

theorem sum_sizeOf_le_sizeOf_list (l : List Json) : (l.map sizeOf).sum < sizeOf l := by
  induction l with
  | nil => simp
  | cons j js ih =>
    simp only [List.map_cons, List.sum_cons, List.cons.sizeOf_spec]
    omega

theorem sizeOf_lt_of_mem_fields {fields : List (String × Json)} {key : String}
    {v : Json} (h : (key, v) ∈ fields) : sizeOf v < sizeOf (Json.obj fields) := by
  have h1 : sizeOf (key, v) ≤ sizeOf fields := le_of_lt (List.sizeOf_lt_of_mem h)
  have h2 : sizeOf (key, v) = 1 + sizeOf key + sizeOf v := rfl
  simp only [Json.obj.sizeOf_spec]
  omega

theorem sizeOf_lt_of_get_eq {j v : Json} {key : String} (h : Json.get j key = some v) :
    sizeOf v < sizeOf j := by
  cases j with
  | obj fields =>
      simp only [Json.get, Option.map_eq_some'] at h
      obtain ⟨p, hfind, hv⟩ := h
      have hmem := List.mem_of_find?_eq_some hfind
      have hmem2 : (p.1, v) ∈ fields := by
        have hp : (p.1, v) = p := by
          cases p
          cases hv
          rfl
        rw [hp]
        exact hmem
      exact sizeOf_lt_of_mem_fields hmem2
  | str s => simp [Json.get] at h
  | int i => simp [Json.get] at h
  | arr items => simp [Json.get] at h
  | null => simp [Json.get] at h

/-- The `while stack:` loop of `_extract_related_topics`.  The Python stack
is a list popped from its right end and extended with the nested `Topics`
entries; the embedding keeps the stack top at the list head, so the seeded
entry list and the pushed topic lists appear reversed.  An entry whose
`Topics` value is a list is expanded; otherwise the entry contributes a
`(stripped Text, optional stripped FirstURL)` item when its `Text` is a
non-blank string, and is skipped otherwise. -/
def extractTopicsLoop :
    List Json → List (String × Option String) → List (String × Option String)
  | [], items => items
  | entry :: rest, items =>
      match htop : Json.get entry "Topics" with
      | some (.arr topics) =>
          extractTopicsLoop ((topics.filterMap to_str_key_dict).reverse ++ rest) items
      | _ =>
          match Json.get entry "Text" with
          | some (.str text) =>
              if text.trim = "" then
                extractTopicsLoop rest items
              else
                extractTopicsLoop rest (items ++ [(text.trim,
                  match Json.get entry "FirstURL" with
                  | some (.str first_url) =>
                      if first_url.trim = "" then none else some first_url.trim
                  | _ => none)])
          | _ => extractTopicsLoop rest items
termination_by stack _ => (stack.map sizeOf).sum
decreasing_by
  · have h1 : sizeOf (Json.arr topics) < sizeOf entry := sizeOf_lt_of_get_eq htop
    have h2 : ((topics.filterMap to_str_key_dict).map sizeOf).sum
        ≤ (topics.map sizeOf).sum := sum_sizeOf_filterMap_le topics
    have h3 : (topics.map sizeOf).sum < sizeOf topics := sum_sizeOf_le_sizeOf_list topics
    have h4 : sizeOf (Json.arr topics) = 1 + sizeOf topics := by simp
    simp only [List.map_append, List.sum_append, List.map_cons, List.sum_cons,
      List.map_reverse, List.sum_reverse]
    omega
  all_goals
    have h1 := Json.sizeOf_pos entry
    simp only [List.map_cons, List.sum_cons]
    omega

/-- `WebSearchNodeHandler._extract_related_topics`: a non-list value yields
no items; otherwise the dict entries seed the stack (Python pops from the
right end, so in the head-top embedding the list is reversed) and the loop
flattens nested topic groups. -/
def extract_related_topics (value : Option Json) : List (String × Option String) :=
  match value with
  | some (.arr entries) =>
      extractTopicsLoop (entries.filterMap to_str_key_dict).reverse []
  | _ => []

/-- A flat related-topic leaf entry: a dict with no `Topics` key and a
non-blank string `Text`. -/
def isLeafEntry (entry : Json) : Prop :=
  (∃ fields, entry = .obj fields)
  ∧ Json.get entry "Topics" = none
  ∧ ∃ t : String, Json.get entry "Text" = some (.str t) ∧ t.trim ≠ ""

/-- The `(stripped Text, optional stripped FirstURL)` item contributed by a
leaf entry in the `while stack:` loop of `_extract_related_topics`. -/
def leafItem (entry : Json) : String × Option String :=
  ((match Json.get entry "Text" with
    | some (.str text) => text.trim
    | _ => ""),
   (match Json.get entry "FirstURL" with
    | some (.str first_url) =>
        if first_url.trim = "" then none else some first_url.trim
    | _ => none))

/-- The abstract item of `_format_results`: when `AbstractText` is a
non-blank string it contributes `(stripped abstract, optional stripped
AbstractURL)` as the first item. -/
def abstractItems (payload : Json) : List (String × Option String) :=
  match Json.get payload "AbstractText" with
  | some (.str abstract) =>
      if abstract.trim = "" then []
      else
        [(abstract.trim,
          match Json.get payload "AbstractURL" with
          | some (.str abstract_url) =>
              if abstract_url.trim = "" then none else some abstract_url.trim
          | _ => none)]
  | _ => []

/-- The item list assembled by `_format_results`: abstract first, then the
related topics. -/
def searchItems (payload : Json) : List (String × Option String) :=
  abstractItems payload ++ extract_related_topics (Json.get payload "RelatedTopics")

/-- One output line of `_format_results`:
`f"{index}. {text}{suffix}"` with `suffix = f" ({url})" if url else ""`
(a stored url is never the empty string by construction). -/
def formatLine (index : Nat) (item : String × Option String) : String :=
  match item.2 with
  | some url => s!"{index}. {item.1} ({url})"
  | none => s!"{index}. {item.1}"

/-- `WebSearchNodeHandler._format_results`: truncate the items to
`max_results` and number the lines starting from 1. -/
def format_results (payload : Json) (max_results : Int) : List String :=
  (((searchItems payload).take max_results.toNat).enumFrom 1).map
    fun p => formatLine p.1 p.2

/-- Outcome of the outbound search HTTP call, covering the `except` clauses
of `WebSearchNodeHandler._search`: a JSON response, `httpx.TimeoutException`,
`httpx.HTTPStatusError`, any other `httpx.HTTPError`, and a `ValueError`
from JSON decoding. -/
inductive SearchOutcome
  | success (payload : Json)
  | timeout
  | statusError (status_code : Nat) (body : String)
  | transportError
  | malformedJson

/-- `WebSearchNodeHandler._search`: map transport failures to
`WebSearchConnectionError` and reject a non-object payload. -/
def webSearchSearch (outcome : SearchOutcome) : Except ExecError Json :=
  match outcome with
  | .success payload =>
      match payload with
      | .obj fields => .ok (.obj fields)
      | _ => .error (.webSearchConnection "Web search provider returned invalid payload format")
  | .timeout =>
      .error (.webSearchConnection "Web search request timed out while running execution")
  | .statusError status_code body =>
      let detail := body.trim
      let message := s!"Web search provider returned {status_code}"
      if detail ≠ "" then
        let excerpt := detail.take 300
        .error (.webSearchConnection s!"{message}: {excerpt}")
      else
        .error (.webSearchConnection message)
  | .transportError =>
      .error (.webSearchConnection "Web search provider request failed")
  | .malformedJson =>
      .error (.webSearchConnection "Web search provider returned malformed JSON")

/-- `WebSearchNodeHandler._build_query`: newline-join the parent values and
strip; when the result is empty fall back to the stripped input value (the
emptiness check that raises lives in `web_search_execute` below, mirroring
the `if not query` guard). -/
def buildQuery (parent_values : List String) (input_value : String) : String :=
  let joined := (String.intercalate "\n" parent_values).trim
  if joined = "" then input_value.trim else joined

/-- `WebSearchNodeHandler.execute`: build the query (newline-joined stripped
parent values, falling back to the stripped input value), validate
`max_results` (an `int` in `[1, 10]`), run the search, format the result
lines, and return the sentinel line when no item survived. -/
def web_search_execute (outcome : SearchOutcome) (node_data : NodeData)
    (parent_values : List String) (input_value : String) : Except ExecError String :=
  let query := buildQuery parent_values input_value
  if query = "" then
    .error (.graphValidation "Web search query is empty")
  else
    match NodeData.get node_data "max_results" with
    | some (.int max_results) =>
        if max_results < 1 ∨ 10 < max_results then
          .error (.graphValidation
            "Web search node requires max_results to be an integer in [1, 10]")
        else
          match webSearchSearch outcome with
          | .error e => .error e
          | .ok payload =>
              let lines := format_results payload max_results
              if lines.isEmpty then
                .ok s!"No search results found for: {query}"
              else
                .ok (String.intercalate "\n" lines)
    | _ =>
        .error (.graphValidation
          "Web search node requires max_results to be an integer in [1, 10]")

/-! ### Correctness of Kahn's algorithm -/

/-- Number of times `k` occurs as an outbound target of the nodes in
`order` — the total amount by which `seen_indegree[k]` has been decremented
after processing `order`. -/
def countInto (outbound : Nat → List Nat) (order : List Nat) (k : Nat) : Int :=
  (order.map fun v => (((outbound v).count k : Nat) : Int)).sum

theorem countInto_nil (outbound : Nat → List Nat) (k : Nat) :
    countInto outbound [] k = 0 := rfl

theorem countInto_append (outbound : Nat → List Nat) (l1 l2 : List Nat) (k : Nat) :
    countInto outbound (l1 ++ l2) k
      = countInto outbound l1 k + countInto outbound l2 k := by
  simp [countInto]

theorem sum_map_le_of_nodup_subset (l1 l2 : List Nat) (f : Nat → Int)
    (h1 : l1.Nodup) (h2 : l2.Nodup) (hsub : ∀ x ∈ l1, x ∈ l2)
    (hf : ∀ x, 0 ≤ f x) : (l1.map f).sum ≤ (l2.map f).sum := by
  rw [← List.sum_toFinset f h1, ← List.sum_toFinset f h2]
  apply Finset.sum_le_sum_of_subset_of_nonneg
  · intro x hx
    exact List.mem_toFinset.mpr (hsub x (List.mem_toFinset.mp hx))
  · intro i _ _
    exact hf i

theorem countInto_le_of_nodup_subset (outbound : Nat → List Nat)
    (l1 l2 : List Nat) (k : Nat) (h1 : l1.Nodup) (h2 : l2.Nodup)
    (hsub : ∀ x ∈ l1, x ∈ l2) :
    countInto outbound l1 k ≤ countInto outbound l2 k := by
  apply sum_map_le_of_nodup_subset l1 l2 _ h1 h2 hsub
  intro x
  exact Int.natCast_nonneg _

/-- The queue entries appended while processing one target list:
a target is appended exactly when its decremented indegree hits zero. -/
def newlyZero : List Nat → (Nat → Int) → List Nat
  | [], _ => []
  | t :: ts, ind =>
      let ind2 : Nat → Int := fun k => if k = t then ind k - 1 else ind k
      if ind2 t = 0 then t :: newlyZero ts ind2 else newlyZero ts ind2

theorem processTargets_fst (ts : List Nat) :
    ∀ (queue : List Nat) (ind : Nat → Int),
      (processTargets ts queue ind).1 = queue ++ newlyZero ts ind := by
  induction ts with
  | nil => intro queue ind; simp [processTargets, newlyZero]
  | cons t ts ih =>
    intro queue ind
    simp only [processTargets, newlyZero, if_true]
    by_cases h0 : ind t - 1 = 0
    · rw [if_pos h0, if_pos h0, ih]
      simp
    · rw [if_neg h0, if_neg h0, ih]

theorem count_cons_int (t : Nat) (ts : List Nat) (k : Nat) :
    (((t :: ts).count k : Nat) : Int)
      = ((ts.count k : Nat) : Int) + (if t = k then 1 else 0) := by
  rw [List.count_cons]
  by_cases ht : t = k
  · simp [ht]
  · have hne : (t == k) = false := by simp [ht]
    simp [hne, ht]

theorem processTargets_snd (ts : List Nat) :
    ∀ (ind : Nat → Int) (queue : List Nat) (k : Nat),
      (processTargets ts queue ind).2 k = ind k - ((ts.count k : Nat) : Int) := by
  induction ts with
  | nil => intro ind queue k; simp [processTargets]
  | cons t ts ih =>
    intro ind queue k
    simp only [processTargets, if_true]
    rw [count_cons_int t ts k]
    by_cases h0 : ind t - 1 = 0
    · rw [if_pos h0, ih]
      by_cases hk : k = t
      · subst hk
        rw [if_pos rfl, if_pos rfl]
        ring
      · rw [if_neg hk, if_neg (fun h => hk h.symm)]
        ring
    · rw [if_neg h0, ih]
      by_cases hk : k = t
      · subst hk
        rw [if_pos rfl, if_pos rfl]
        ring
      · rw [if_neg hk, if_neg (fun h => hk h.symm)]
        ring

theorem newlyZero_subset (ts : List Nat) :
    ∀ (ind : Nat → Int), ∀ u ∈ newlyZero ts ind, u ∈ ts := by
  induction ts with
  | nil => intro ind u hu; simp [newlyZero] at hu
  | cons t ts ih =>
    intro ind u hu
    simp only [newlyZero, if_true] at hu
    by_cases h0 : ind t - 1 = 0
    · rw [if_pos h0] at hu
      rcases List.mem_cons.mp hu with heq | hmem
      · exact heq ▸ List.mem_cons_self t ts
      · exact List.mem_cons_of_mem t (ih _ u hmem)
    · rw [if_neg h0] at hu
      exact List.mem_cons_of_mem t (ih _ u hu)

theorem newlyZero_bound_step (t : Nat) (ts : List Nat) (ind : Nat → Int)
    (hbound : ∀ u, (((t :: ts).count u : Nat) : Int) ≤ ind u) :
    ∀ w, ((ts.count w : Nat) : Int)
      ≤ (fun k => if k = t then ind k - 1 else ind k) w := by
  intro w
  have hb := hbound w
  rw [count_cons_int t ts w] at hb
  show ((ts.count w : Nat) : Int) ≤ if w = t then ind w - 1 else ind w
  by_cases hw : w = t
  · subst hw
    rw [if_pos rfl] at hb ⊢
    omega
  · rw [if_neg hw]
    rw [if_neg (fun h => hw h.symm)] at hb
    omega

theorem newlyZero_count (ts : List Nat) :
    ∀ (ind : Nat → Int), (∀ u, ((ts.count u : Nat) : Int) ≤ ind u) →
      ∀ u ∈ newlyZero ts ind, ind u = ((ts.count u : Nat) : Int) ∧ 1 ≤ ind u := by
  induction ts with
  | nil => intro ind _ u hu; simp [newlyZero] at hu
  | cons t ts ih =>
    intro ind hbound u hu
    have hbound2 := newlyZero_bound_step t ts ind hbound
    simp only [newlyZero, if_true] at hu
    by_cases h0 : ind t - 1 = 0
    · rw [if_pos h0] at hu
      rcases List.mem_cons.mp hu with heq | hmem
      · subst heq
        have hb := hbound u
        rw [count_cons_int u ts u] at hb ⊢
        rw [if_pos rfl] at hb ⊢
        omega
      · have hres := ih _ hbound2 u hmem
        by_cases hut : u = t
        · subst hut
          rw [if_pos rfl] at hres
          omega
        · rw [if_neg hut] at hres
          rw [count_cons_int t ts u, if_neg (fun h => hut h.symm)]
          omega
    · rw [if_neg h0] at hu
      have hres := ih _ hbound2 u hu
      by_cases hut : u = t
      · subst hut
        rw [if_pos rfl] at hres
        rw [count_cons_int u ts u, if_pos rfl]
        omega
      · rw [if_neg hut] at hres
        rw [count_cons_int t ts u, if_neg (fun h => hut h.symm)]
        omega

theorem newlyZero_nodup (ts : List Nat) :
    ∀ (ind : Nat → Int), (∀ u, ((ts.count u : Nat) : Int) ≤ ind u) →
      (newlyZero ts ind).Nodup := by
  induction ts with
  | nil => intro ind _; simp [newlyZero]
  | cons t ts ih =>
    intro ind hbound
    have hbound2 := newlyZero_bound_step t ts ind hbound
    simp only [newlyZero, if_true]
    by_cases h0 : ind t - 1 = 0
    · rw [if_pos h0]
      refine List.nodup_cons.mpr ⟨?_, ih _ hbound2⟩
      intro hmem
      have hres := (newlyZero_count ts _ hbound2 t hmem).2
      rw [if_pos rfl] at hres
      omega
    · rw [if_neg h0]
      exact ih _ hbound2

theorem countInto_singleton (outbound : Nat → List Nat) (v k : Nat) :
    countInto outbound [v] k = (((outbound v).count k : Nat) : Int) := by
  simp [countInto]

theorem countInto_cons (outbound : Nat → List Nat) (s : Nat) (order : List Nat)
    (k : Nat) :
    countInto outbound (s :: order) k
      = (((outbound s).count k : Nat) : Int) + countInto outbound order k := by
  simp [countInto]

/-- Loop invariant of the Kahn loop, relating the queue, the order built so
far and the current `seen_indegree` map to the original graph data. -/
structure KahnInv (keys : List Nat) (outbound : Nat → List Nat)
    (indeg0 : Nat → Int) (queue order : List Nat) (ind : Nat → Int) : Prop where
  nodup : (order ++ queue).Nodup
  mem_keys : ∀ v ∈ order ++ queue, v ∈ keys
  ind_eq : ∀ k, ind k = indeg0 k - countInto outbound order k
  queue_zero : ∀ v ∈ queue, ind v = 0
  order_nonpos : ∀ v ∈ order, ind v ≤ 0
  edge_before : ∀ t ∈ order, ∀ s ∈ keys, t ∈ outbound s →
    s ∈ order ∧ order.indexOf s < order.indexOf t

theorem kahnInv_step (keys : List Nat) (outbound : Nat → List Nat)
    (indeg0 : Nat → Int) (hkeys : keys.Nodup)
    (hout : ∀ k, ∀ t ∈ outbound k, t ∈ keys)
    (hindeg : ∀ k, indeg0 k = countInto outbound keys k)
    (v : Nat) (rest order : List Nat) (ind : Nat → Int)
    (inv : KahnInv keys outbound indeg0 (v :: rest) order ind) :
    KahnInv keys outbound indeg0 (processTargets (outbound v) rest ind).1
      (order ++ [v]) (processTargets (outbound v) rest ind).2 := by
  obtain ⟨nodup, mem_keys, ind_eq, queue_zero, order_nonpos, edge_before⟩ := inv
  have hfst := processTargets_fst (outbound v) rest ind
  have hsnd := processTargets_snd (outbound v) ind rest
  have hv_keys : v ∈ keys := mem_keys v (by simp)
  have hv_zero : ind v = 0 := queue_zero v (List.mem_cons_self v rest)
  have hsplit := List.nodup_append.mp nodup
  have horder_nodup : order.Nodup := hsplit.1
  have hdisj : order.Disjoint (v :: rest) := hsplit.2.2
  have hv_not_order : v ∉ order := fun hvo => hdisj hvo (by simp)
  have horderv_nodup : (order ++ [v]).Nodup := by
    apply List.nodup_append.mpr
    refine ⟨horder_nodup, List.nodup_singleton v, ?_⟩
    intro a ha hav
    rw [List.mem_singleton] at hav
    exact hv_not_order (hav ▸ ha)
  have horderv_sub : ∀ x ∈ order ++ [v], x ∈ keys := by
    intro x hx
    rcases List.mem_append.mp hx with hxo | hxv
    · exact mem_keys x (List.mem_append.mpr (Or.inl hxo))
    · rw [List.mem_singleton] at hxv
      exact hxv ▸ hv_keys
  have hbound : ∀ u, (((outbound v).count u : Nat) : Int) ≤ ind u := by
    intro u
    have h1 : countInto outbound (order ++ [v]) u ≤ countInto outbound keys u :=
      countInto_le_of_nodup_subset outbound (order ++ [v]) keys u
        horderv_nodup hkeys horderv_sub
    rw [countInto_append, countInto_singleton] at h1
    have h2 := ind_eq u
    have h3 := hindeg u
    omega
  refine ⟨?_, ?_, ?_, ?_, ?_, ?_⟩
  · rw [hfst]
    have hassoc : (order ++ [v]) ++ (rest ++ newlyZero (outbound v) ind)
        = (order ++ ([v] ++ rest)) ++ newlyZero (outbound v) ind := by
      simp [List.append_assoc]
    rw [hassoc]
    apply List.nodup_append.mpr
    refine ⟨by simpa using nodup, newlyZero_nodup (outbound v) ind hbound, ?_⟩
    intro a ha hanew
    have hcount := newlyZero_count (outbound v) ind hbound a hanew
    rcases List.mem_append.mp ha with hao | havr
    · have := order_nonpos a hao
      omega
    · rcases List.mem_append.mp havr with hav | har
      · rw [List.mem_singleton] at hav
        subst hav
        omega
      · have := queue_zero a (List.mem_cons_of_mem v har)
        omega
  · rw [hfst]
    intro u hu
    rcases List.mem_append.mp hu with huo | hurest
    · exact horderv_sub u huo
    · rcases List.mem_append.mp hurest with hur | hunew
      · exact mem_keys u (List.mem_append.mpr (Or.inr (List.mem_cons_of_mem v hur)))
      · exact hout v u (newlyZero_subset (outbound v) ind u hunew)
  · intro k
    rw [hsnd k, countInto_append, countInto_singleton, ind_eq k]
    ring
  · intro u hu
    rw [hsnd u]
    rw [hfst] at hu
    rcases List.mem_append.mp hu with hur | hunew
    · have h1 := queue_zero u (List.mem_cons_of_mem v hur)
      have h2 := hbound u
      omega
    · have := newlyZero_count (outbound v) ind hbound u hunew
      omega
  · intro u hu
    rw [hsnd u]
    rcases List.mem_append.mp hu with huo | huv
    · have h1 := order_nonpos u huo
      have h2 : (0 : Int) ≤ (((outbound v).count u : Nat) : Int) := Int.natCast_nonneg _
      omega
    · rw [List.mem_singleton] at huv
      have h2 : (0 : Int) ≤ (((outbound v).count u : Nat) : Int) := Int.natCast_nonneg _
      have h3 : ind u = 0 := by rw [huv]; exact hv_zero
      omega
  · intro t ht s hs hts
    rcases List.mem_append.mp ht with hto | htv
    · obtain ⟨hso, hidx⟩ := edge_before t hto s hs hts
      refine ⟨List.mem_append.mpr (Or.inl hso), ?_⟩
      rw [List.indexOf_append_of_mem hso, List.indexOf_append_of_mem hto]
      exact hidx
    · rw [List.mem_singleton] at htv
      subst htv
      have hso : s ∈ order := by
        by_contra hso
        have hsnodup : (s :: order).Nodup := List.nodup_cons.mpr ⟨hso, horder_nodup⟩
        have hssub : ∀ x ∈ s :: order, x ∈ keys := by
          intro x hx
          rcases List.mem_cons.mp hx with hxs | hxo
          · exact hxs ▸ hs
          · exact mem_keys x (List.mem_append.mpr (Or.inl hxo))
        have h1 : countInto outbound (s :: order) t ≤ countInto outbound keys t :=
          countInto_le_of_nodup_subset outbound (s :: order) keys t
            hsnodup hkeys hssub
        rw [countInto_cons] at h1
        have h2 := ind_eq t
        have h3 := hindeg t
        have h4 : 0 < (outbound s).count t := List.count_pos_iff.mpr hts
        have h5 : (1 : Int) ≤ (((outbound s).count t : Nat) : Int) := by
          exact_mod_cast h4
        omega
      refine ⟨List.mem_append.mpr (Or.inl hso), ?_⟩
      rw [List.indexOf_append_of_mem hso,
        List.indexOf_append_of_not_mem hv_not_order]
      have h1 : order.indexOf s < order.length := List.indexOf_lt_length.mpr hso
      have h2 : ([t] : List Nat).indexOf t = 0 := by simp
      omega

theorem kahnLoop_nil (keys : List Nat) (outbound : Nat → List Nat)
    (hout : ∀ k, ∀ t ∈ outbound k, t ∈ keys) (order : List Nat) (ind : Nat → Int) :
    kahnLoop keys outbound hout [] order ind = order := by
  rw [kahnLoop.eq_def]

theorem kahnLoop_cons (keys : List Nat) (outbound : Nat → List Nat)
    (hout : ∀ k, ∀ t ∈ outbound k, t ∈ keys) (v : Nat) (rest order : List Nat)
    (ind : Nat → Int) :
    kahnLoop keys outbound hout (v :: rest) order ind
      = kahnLoop keys outbound hout (processTargets (outbound v) rest ind).1
          (order ++ [v]) (processTargets (outbound v) rest ind).2 := by
  rw [kahnLoop.eq_def]

theorem kahnLoop_inv (keys : List Nat) (outbound : Nat → List Nat)
    (indeg0 : Nat → Int) (hkeys : keys.Nodup)
    (hout : ∀ k, ∀ t ∈ outbound k, t ∈ keys)
    (hindeg : ∀ k, indeg0 k = countInto outbound keys k) :
    ∀ (queue order : List Nat) (ind : Nat → Int),
      KahnInv keys outbound indeg0 queue order ind →
      ∃ ind', KahnInv keys outbound indeg0 []
        (kahnLoop keys outbound hout queue order ind) ind' := by
  intro queue order ind
  induction queue, order, ind using kahnLoop.induct keys outbound hout with
  | case1 order ind =>
      intro inv
      rw [kahnLoop_nil]
      exact ⟨ind, inv⟩
  | case2 v rest order ind ih =>
      intro inv
      rw [kahnLoop_cons]
      exact ih (kahnInv_step keys outbound indeg0 hkeys hout hindeg v rest order ind inv)

/-- Specification of `_topological_order` on valid adjacency data: a
returned order is a permutation of the keys that respects every outbound
edge. -/
theorem topological_order_ok (keys : List Nat) (indeg0 : Nat → Int)
    (outbound : Nat → List Nat) (hout : ∀ k, ∀ t ∈ outbound k, t ∈ keys)
    (order : List Nat) (hkeys : keys.Nodup)
    (hindeg : ∀ k, indeg0 k = countInto outbound keys k)
    (hok : topological_order keys indeg0 outbound hout = .ok order) :
    order.Perm keys ∧
      ∀ s ∈ keys, ∀ t ∈ outbound s, order.indexOf s < order.indexOf t := by
  have hinv0 : KahnInv keys outbound indeg0
      (keys.filter fun k => indeg0 k == 0) [] indeg0 := by
    refine ⟨?_, ?_, ?_, ?_, ?_, ?_⟩
    · simpa using hkeys.filter _
    · intro v hv
      simp only [List.nil_append] at hv
      exact List.mem_of_mem_filter hv
    · intro k
      rw [countInto_nil]
      ring
    · intro v hv
      have := (List.mem_filter.mp hv).2
      exact beq_iff_eq.mp this
    · intro v hv
      simp at hv
    · intro t ht
      simp at ht
  obtain ⟨ind', hinv⟩ := kahnLoop_inv keys outbound indeg0 hkeys hout hindeg
    (keys.filter fun k => indeg0 k == 0) [] indeg0 hinv0
  set res := kahnLoop keys outbound hout
    (keys.filter fun k => indeg0 k == 0) [] indeg0 with hres
  have hlen : res.length = keys.length ∧ order = res := by
    rw [topological_order] at hok
    by_cases hcond : res.length ≠ keys.length
    · rw [if_pos hcond] at hok
      exact absurd hok (by simp)
    · rw [if_neg hcond] at hok
      have := Except.ok.inj hok
      exact ⟨by omega, this.symm⟩
  obtain ⟨hlen_eq, horder_eq⟩ := hlen
  subst horder_eq
  have hnodup : res.Nodup := by simpa using hinv.nodup
  have hsub : ∀ x ∈ res, x ∈ keys := by
    intro x hx
    exact hinv.mem_keys x (by simpa using hx)
  have hperm : res.Perm keys := by
    apply List.perm_of_nodup_nodup_toFinset_eq hnodup hkeys
    apply Finset.eq_of_subset_of_card_le
    · intro x hx
      exact List.mem_toFinset.mpr (hsub x (List.mem_toFinset.mp hx))
    · rw [List.toFinset_card_of_nodup hnodup, List.toFinset_card_of_nodup hkeys]
      omega
  refine ⟨hperm, ?_⟩
  intro s hskeys t htout
  have htkeys : t ∈ keys := hout s t htout
  have htres : t ∈ res := (hperm.mem_iff).mpr htkeys
  have := hinv.edge_before t (by simpa using htres) s hskeys htout
  simpa using this.2

theorem sum_map_add_int (l : List Nat) (f g : Nat → Int) :
    (l.map fun v => f v + g v).sum = (l.map f).sum + (l.map g).sum := by
  induction l with
  | nil => simp
  | cons x l ih =>
    simp only [List.map_cons, List.sum_cons, ih]
    ring

theorem sum_map_ite_eq_zero (l : List Nat) (a : Nat) (h : a ∉ l) :
    (l.map fun v => if a = v then (1 : Int) else 0).sum = 0 := by
  induction l with
  | nil => simp
  | cons x l ih =>
    simp only [List.map_cons, List.sum_cons]
    have hne : ¬a = x := by
      intro heq
      rw [heq] at h
      exact h (List.mem_cons_self x l)
    rw [if_neg hne, ih (fun hmem => h (List.mem_cons_of_mem x hmem))]
    ring

theorem sum_map_ite_eq_one (l : List Nat) (a : Nat) (hnd : l.Nodup) (h : a ∈ l) :
    (l.map fun v => if a = v then (1 : Int) else 0).sum = 1 := by
  induction l with
  | nil => simp at h
  | cons x l ih =>
    simp only [List.map_cons, List.sum_cons]
    rcases List.mem_cons.mp h with heq | hmem
    · have hnotmem : a ∉ l := by
        rw [heq]
        exact (List.nodup_cons.mp hnd).1
      rw [if_pos heq, sum_map_ite_eq_zero l a hnotmem]
      ring
    · have hne : ¬a = x := fun heq => (List.nodup_cons.mp hnd).1 (heq ▸ hmem)
      rw [if_neg hne, ih (List.nodup_cons.mp hnd).2 hmem]
      ring

theorem count_outboundOf_cons (e : Edge) (es : List Edge) (v k : Nat) :
    (((outboundOf (e :: es) v).count k : Nat) : Int)
      = (((outboundOf es v).count k : Nat) : Int)
        + (if e.source_node_id = v ∧ e.target_node_id = k then 1 else 0) := by
  by_cases hsv : e.source_node_id = v <;> by_cases htk : e.target_node_id = k <;>
    simp [outboundOf, List.filter_cons, hsv, htk, List.count_cons] <;>
    push_cast <;> omega

theorem sum_count_outboundOf (keys : List Nat) (hkeys : keys.Nodup) :
    ∀ (edges : List Edge), (∀ e ∈ edges, e.source_node_id ∈ keys) → ∀ k,
      (keys.map fun v => (((outboundOf edges v).count k : Nat) : Int)).sum
        = (((inboundOf edges k).length : Nat) : Int) := by
  intro edges
  induction edges with
  | nil =>
      intro _ k
      simp [outboundOf, inboundOf]
  | cons e es ih =>
      intro hsrc k
      have hsrces : ∀ e' ∈ es, e'.source_node_id ∈ keys :=
        fun e' he' => hsrc e' (List.mem_cons_of_mem e he')
      have hsrce : e.source_node_id ∈ keys := hsrc e (List.mem_cons_self e es)
      have hmapeq : (keys.map fun v => (((outboundOf (e :: es) v).count k : Nat) : Int))
          = keys.map fun v => (((outboundOf es v).count k : Nat) : Int)
              + (if e.source_node_id = v ∧ e.target_node_id = k then 1 else 0) := by
        apply List.map_congr_left
        intro v _
        exact count_outboundOf_cons e es v k
      rw [hmapeq, sum_map_add_int, ih hsrces k]
      by_cases htk : e.target_node_id = k
      · have hite : (keys.map fun v =>
            if e.source_node_id = v ∧ e.target_node_id = k then (1 : Int) else 0)
            = keys.map fun v => if e.source_node_id = v then (1 : Int) else 0 := by
          apply List.map_congr_left
          intro v _
          by_cases hsv : e.source_node_id = v
          · rw [if_pos ⟨hsv, htk⟩, if_pos hsv]
          · rw [if_neg (fun h => hsv h.1), if_neg hsv]
        rw [hite, sum_map_ite_eq_one keys e.source_node_id hkeys hsrce]
        have hlen : inboundOf (e :: es) k = e.source_node_id :: inboundOf es k := by
          simp [inboundOf, List.filter_cons, htk]
        rw [hlen]
        simp only [List.length_cons]
        push_cast
        ring
      · have hite : (keys.map fun v =>
            if e.source_node_id = v ∧ e.target_node_id = k then (1 : Int) else 0)
            = keys.map fun v => if e.source_node_id = v then (0 : Int) else 0 := by
          apply List.map_congr_left
          intro v _
          by_cases hsv : e.source_node_id = v
          · rw [if_neg (fun h => htk h.2), if_pos hsv]
          · rw [if_neg (fun h => hsv h.1), if_neg hsv]
        have hzero : (keys.map fun v =>
            if e.source_node_id = v then (0 : Int) else 0).sum = 0 := by
          have : (keys.map fun v => if e.source_node_id = v then (0 : Int) else 0)
              = keys.map fun _ => (0 : Int) := by
            apply List.map_congr_left
            intro v _
            by_cases hsv : e.source_node_id = v
            · rw [if_pos hsv]
            · rw [if_neg hsv]
          rw [this]
          simp
        rw [hite, hzero]
        have hlen : inboundOf (e :: es) k = inboundOf es k := by
          simp [inboundOf, List.filter_cons, htk]
        rw [hlen]
        ring

/-- The indegree dict built by `_build_graph_context` agrees with the total
outbound-target count over the node ids, as long as every edge source is a
node id. -/
theorem buildAdjacency_indeg_countInto (keys : List Nat) (edges : List Edge)
    (hkeys : keys.Nodup) (hv : edgesValid keys edges = true) :
    ∀ k, (buildAdjacency edges).indegree k
      = countInto (buildAdjacency edges).outbound keys k := by
  intro k
  have houtb : (keys.map fun v => (((buildAdjacency edges).outbound v).count k : Int))
      = keys.map fun v => (((outboundOf edges v).count k : Nat) : Int) := by
    apply List.map_congr_left
    intro v _
    rw [buildAdjacency_outbound]
  rw [buildAdjacency_indegree, countInto, houtb,
    sum_count_outboundOf keys hkeys edges
      (fun e he => (edgesValid_sound hv e he).1) k]

/-- Inversion of a successful graph build: the validations passed, the
topological order came from Kahn's algorithm on the built adjacency, the
connectivity check passed, and the context fields are as constructed. -/
theorem build_graph_context_ok_inv {nodes : List Node} {edges : List Edge}
    {ctx : GraphContext}
    (h : build_graph_context nodes edges = .ok ctx) :
    ∃ hv : edgesValid (nodes.map Node.id) edges = true,
      topological_order (nodes.map Node.id) (buildAdjacency edges).indegree
          (buildAdjacency edges).outbound (outbound_closure hv)
          = .ok ctx.topological_order
      ∧ ctx.outbound = (buildAdjacency edges).outbound
      ∧ ctx.inbound = (buildAdjacency edges).inbound
      ∧ ctx.nodes_by_id = nodesById nodes
      ∧ validate_connectivity ctx.input_node_id ctx.output_node_id
          (buildAdjacency edges).outbound (buildAdjacency edges).inbound
          (nodes.map Node.id) (outbound_closure hv) (inbound_closure hv) = .ok ()
      ∧ (nodes.filter fun node => node.type == NodeType.input).length = 1
      ∧ (nodes.filter fun node => node.type == NodeType.output).length = 1
      ∧ (∃ n, (nodes.filter fun node => node.type == NodeType.input).head? = some n
            ∧ ctx.input_node_id = n.id)
      ∧ (∃ n, (nodes.filter fun node => node.type == NodeType.output).head? = some n
            ∧ ctx.output_node_id = n.id) := by
  unfold build_graph_context at h
  by_cases hempty : nodes.isEmpty
  · rw [if_pos hempty] at h
    exact absurd h (by simp)
  · rw [if_neg hempty] at h
    by_cases hc1 : (nodes.filter fun node => node.type == NodeType.input).length ≠ 1
    · rw [dif_pos hc1] at h
      exact absurd h (by simp)
    · rw [dif_neg hc1] at h
      by_cases hc2 : (nodes.filter fun node => node.type == NodeType.output).length ≠ 1
      · rw [dif_pos hc2] at h
        exact absurd h (by simp)
      · rw [dif_neg hc2] at h
        by_cases hv : edgesValid (nodes.map Node.id) edges = true
        · rw [dif_pos hv] at h
          refine ⟨hv, ?_⟩
          set T := topological_order (nodes.map Node.id)
            (buildAdjacency edges).indegree (buildAdjacency edges).outbound
            (outbound_closure hv) with hT
          cases hTeq : T with
          | error e =>
              rw [hTeq] at h
              exact absurd h (by simp)
          | ok order =>
              rw [hTeq] at h
              dsimp only at h
              set V := validate_connectivity
                ((nodes.filter fun node => node.type == NodeType.input).head (by
                  intro hnil
                  rw [hnil] at hc1
                  simp at hc1)).id
                ((nodes.filter fun node => node.type == NodeType.output).head (by
                  intro hnil
                  rw [hnil] at hc2
                  simp at hc2)).id
                (buildAdjacency edges).outbound (buildAdjacency edges).inbound
                (nodes.map Node.id)
                (outbound_closure hv) (inbound_closure hv) with hV
              cases hVeq : V with
              | error e =>
                  rw [hVeq] at h
                  exact absurd h (by simp)
              | ok u =>
                  rw [hVeq] at h
                  dsimp only at h
                  rw [Except.ok.injEq] at h
                  subst h
                  dsimp only
                  refine ⟨rfl, rfl, rfl, rfl, ?_, by omega, by omega,
                    ?_, ?_⟩
                  · cases u
                    rw [← hV]
                    exact hVeq
                  · exact ⟨_, List.head?_eq_head _, rfl⟩
                  · exact ⟨_, List.head?_eq_head _, rfl⟩
        · rw [dif_neg hv] at h
          exact absurd h (by simp)

/-! ### Correctness of the reachability DFS -/

theorem collectLoop_nil (keys : List Nat) (adjacency : Nat → List Nat)
    (hadj : ∀ k, ∀ t ∈ adjacency k, t ∈ keys) (visited : List Nat) :
    collectLoop keys adjacency hadj [] visited = visited := by
  rw [collectLoop.eq_def]

theorem collectLoop_cons (keys : List Nat) (adjacency : Nat → List Nat)
    (hadj : ∀ k, ∀ t ∈ adjacency k, t ∈ keys) (node_id : Nat)
    (rest visited : List Nat) :
    collectLoop keys adjacency hadj (node_id :: rest) visited
      = if node_id ∈ visited then collectLoop keys adjacency hadj rest visited
        else collectLoop keys adjacency hadj
          ((adjacency node_id).reverse ++ rest) (visited ++ [node_id]) := by
  rw [collectLoop.eq_def]

theorem collectLoop_sound (keys : List Nat) (adjacency : Nat → List Nat)
    (hadj : ∀ k, ∀ t ∈ adjacency k, t ∈ keys) (P : Nat → Prop)
    (hclosed : ∀ a, P a → ∀ b ∈ adjacency a, P b) :
    ∀ (stack visited : List Nat), (∀ v ∈ stack, P v) → (∀ v ∈ visited, P v) →
      ∀ u ∈ collectLoop keys adjacency hadj stack visited, P u := by
  intro stack visited
  induction stack, visited using collectLoop.induct keys adjacency hadj with
  | case1 visited =>
      intro _ hvis u hu
      rw [collectLoop_nil] at hu
      exact hvis u hu
  | case2 node_id rest visited hmem ih =>
      intro hst hvis u hu
      rw [collectLoop_cons, if_pos hmem] at hu
      exact ih (fun v hv => hst v (List.mem_cons_of_mem node_id hv)) hvis u hu
  | case3 node_id rest visited hmem ih =>
      intro hst hvis u hu
      rw [collectLoop_cons, if_neg hmem] at hu
      have hP : P node_id := hst node_id (List.mem_cons_self node_id rest)
      refine ih ?_ ?_ u hu
      · intro v hv
        rcases List.mem_append.mp hv with hvl | hvr
        · exact hclosed node_id hP v (List.mem_reverse.mp hvl)
        · exact hst v (List.mem_cons_of_mem node_id hvr)
      · intro v hv
        rcases List.mem_append.mp hv with hvl | hvr
        · exact hvis v hvl
        · rw [List.mem_singleton] at hvr
          exact hvr ▸ hP

theorem collectLoop_mem (keys : List Nat) (adjacency : Nat → List Nat)
    (hadj : ∀ k, ∀ t ∈ adjacency k, t ∈ keys) :
    ∀ (stack visited : List Nat),
      (∀ u ∈ visited, u ∈ collectLoop keys adjacency hadj stack visited)
      ∧ (∀ u ∈ stack, u ∈ collectLoop keys adjacency hadj stack visited) := by
  intro stack visited
  induction stack, visited using collectLoop.induct keys adjacency hadj with
  | case1 visited =>
      rw [collectLoop_nil]
      exact ⟨fun u hu => hu, fun u hu => by simp at hu⟩
  | case2 node_id rest visited hmem ih =>
      rw [collectLoop_cons, if_pos hmem]
      refine ⟨ih.1, ?_⟩
      intro u hu
      rcases List.mem_cons.mp hu with heq | hur
      · exact heq ▸ ih.1 node_id hmem
      · exact ih.2 u hur
  | case3 node_id rest visited hmem ih =>
      rw [collectLoop_cons, if_neg hmem]
      constructor
      · intro u hu
        exact ih.1 u (List.mem_append.mpr (Or.inl hu))
      · intro u hu
        rcases List.mem_cons.mp hu with heq | hur
        · exact heq ▸ ih.1 node_id (List.mem_append.mpr (Or.inr (by simp)))
        · exact ih.2 u (List.mem_append.mpr (Or.inr hur))

theorem collectLoop_closed (keys : List Nat) (adjacency : Nat → List Nat)
    (hadj : ∀ k, ∀ t ∈ adjacency k, t ∈ keys) :
    ∀ (stack visited : List Nat),
      (∀ v ∈ visited, ∀ t ∈ adjacency v, t ∈ visited ∨ t ∈ stack) →
      ∀ v ∈ collectLoop keys adjacency hadj stack visited,
        ∀ t ∈ adjacency v, t ∈ collectLoop keys adjacency hadj stack visited := by
  intro stack visited
  induction stack, visited using collectLoop.induct keys adjacency hadj with
  | case1 visited =>
      intro hinv v hv t ht
      rw [collectLoop_nil] at hv ⊢
      rcases hinv v hv t ht with h | h
      · exact h
      · simp at h
  | case2 node_id rest visited hmem ih =>
      intro hinv
      rw [collectLoop_cons, if_pos hmem]
      apply ih
      intro v hv t ht
      rcases hinv v hv t ht with h | h
      · exact Or.inl h
      · rcases List.mem_cons.mp h with heq | hur
        · exact Or.inl (heq ▸ hmem)
        · exact Or.inr hur
  | case3 node_id rest visited hmem ih =>
      intro hinv
      rw [collectLoop_cons, if_neg hmem]
      apply ih
      intro v hv t ht
      rcases List.mem_append.mp hv with hvl | hvr
      · rcases hinv v hvl t ht with h | h
        · exact Or.inl (List.mem_append.mpr (Or.inl h))
        · rcases List.mem_cons.mp h with heq | hur
          · exact Or.inl (List.mem_append.mpr (Or.inr (by simp [heq])))
          · exact Or.inr (List.mem_append.mpr (Or.inr hur))
      · rw [List.mem_singleton] at hvr
        subst hvr
        exact Or.inr (List.mem_append.mpr (Or.inl (List.mem_reverse.mpr ht)))

/-- `_collect_reachable` computes exactly the reflexive-transitive closure of
the adjacency relation from the start node. -/
theorem mem_collect_reachable_iff (keys : List Nat) (adjacency : Nat → List Nat)
    (hadj : ∀ k, ∀ t ∈ adjacency k, t ∈ keys) (start_node_id : Nat) (u : Nat) :
    u ∈ collect_reachable keys adjacency hadj start_node_id
      ↔ Relation.ReflTransGen (fun a b => b ∈ adjacency a) start_node_id u := by
  constructor
  · intro hu
    refine collectLoop_sound keys adjacency hadj
      (Relation.ReflTransGen (fun a b => b ∈ adjacency a) start_node_id)
      ?_ [start_node_id] [] ?_ ?_ u hu
    · intro a ha b hb
      exact Relation.ReflTransGen.tail ha hb
    · intro v hv
      rw [List.mem_singleton] at hv
      exact hv ▸ Relation.ReflTransGen.refl
    · intro v hv
      simp at hv
  · intro hreach
    have hstart : start_node_id ∈ collect_reachable keys adjacency hadj start_node_id :=
      (collectLoop_mem keys adjacency hadj [start_node_id] []).2 start_node_id (by simp)
    have hclosed := collectLoop_closed keys adjacency hadj [start_node_id] []
      (by intro v hv; simp at hv)
    induction hreach with
    | refl => exact hstart
    | tail hab hbc ih => exact hclosed _ ih _ hbc

/-- `_validate_connectivity` succeeds exactly when every node id is forward
reachable from the input node and backward reachable from the output node. -/
theorem validate_connectivity_ok_iff (input_node_id output_node_id : Nat)
    (outbound inbound : Nat → List Nat) (keys : List Nat)
    (houtb : ∀ k, ∀ t ∈ outbound k, t ∈ keys)
    (hinb : ∀ k, ∀ t ∈ inbound k, t ∈ keys) :
    validate_connectivity input_node_id output_node_id outbound inbound keys
        houtb hinb = .ok ()
      ↔ ∀ k ∈ keys,
          Relation.ReflTransGen (fun a b => b ∈ outbound a) input_node_id k
          ∧ Relation.ReflTransGen (fun a b => b ∈ inbound a) output_node_id k := by
  unfold validate_connectivity
  by_cases hall : keys.all (fun node_id =>
      (collect_reachable keys outbound houtb input_node_id).contains node_id
      && (collect_reachable keys inbound hinb output_node_id).contains node_id) = true
  · rw [if_pos hall]
    simp only [true_iff]
    intro k hk
    have := List.all_eq_true.mp hall k hk
    rw [Bool.and_eq_true] at this
    exact ⟨(mem_collect_reachable_iff _ _ _ _ _).mp
        (List.mem_of_elem_eq_true this.1),
      (mem_collect_reachable_iff _ _ _ _ _).mp
        (List.mem_of_elem_eq_true this.2)⟩
  · rw [if_neg hall]
    constructor
    · intro h
      exact absurd h (by simp)
    · intro h
      exfalso
      apply hall
      apply List.all_eq_true.mpr
      intro k hk
      rw [Bool.and_eq_true]
      obtain ⟨h1, h2⟩ := h k hk
      exact ⟨List.elem_eq_true_of_mem ((mem_collect_reachable_iff _ _ _ _ _).mpr h1),
        List.elem_eq_true_of_mem ((mem_collect_reachable_iff _ _ _ _ _).mpr h2)⟩

theorem topological_order_error_shape {keys : List Nat} {indeg0 : Nat → Int}
    {outbound : Nat → List Nat} {hout : ∀ k, ∀ t ∈ outbound k, t ∈ keys}
    {err : ExecError}
    (h : topological_order keys indeg0 outbound hout = .error err) :
    err = .graphValidation "Workflow graph must be acyclic" := by
  rw [topological_order] at h
  set res := kahnLoop keys outbound hout
    (keys.filter fun k => indeg0 k == 0) [] indeg0 with hres
  by_cases hc : res.length ≠ keys.length
  · rw [if_pos hc] at h
    exact (Except.error.inj h).symm
  · rw [if_neg hc] at h
    exact absurd h (by simp)

theorem validate_connectivity_error_shape {input_node_id output_node_id : Nat}
    {outbound inbound : Nat → List Nat} {keys : List Nat}
    {houtb : ∀ k, ∀ t ∈ outbound k, t ∈ keys}
    {hinb : ∀ k, ∀ t ∈ inbound k, t ∈ keys} {err : ExecError}
    (h : validate_connectivity input_node_id output_node_id outbound inbound keys
        houtb hinb = .error err) :
    err = .graphValidation "All workflow nodes must belong to input->output path" := by
  unfold validate_connectivity at h
  by_cases hall : keys.all (fun node_id =>
      (collect_reachable keys outbound houtb input_node_id).contains node_id
      && (collect_reachable keys inbound hinb output_node_id).contains node_id) = true
  · rw [if_pos hall] at h
    exact absurd h (by simp)
  · rw [if_neg hall] at h
    exact (Except.error.inj h).symm

/-- Every failure of `_build_graph_context` is an
`ExecutionGraphValidationError`. -/
theorem build_graph_context_error_shape {nodes : List Node} {edges : List Edge}
    {err : ExecError} (h : build_graph_context nodes edges = .error err) :
    ∃ m, err = .graphValidation m := by
  unfold build_graph_context at h
  by_cases hempty : nodes.isEmpty
  · rw [if_pos hempty] at h
    exact ⟨_, (Except.error.inj h).symm⟩
  · rw [if_neg hempty] at h
    by_cases hc1 : (nodes.filter fun node => node.type == NodeType.input).length ≠ 1
    · rw [dif_pos hc1] at h
      exact ⟨_, (Except.error.inj h).symm⟩
    · rw [dif_neg hc1] at h
      by_cases hc2 : (nodes.filter fun node => node.type == NodeType.output).length ≠ 1
      · rw [dif_pos hc2] at h
        exact ⟨_, (Except.error.inj h).symm⟩
      · rw [dif_neg hc2] at h
        by_cases hv : edgesValid (nodes.map Node.id) edges = true
        · rw [dif_pos hv] at h
          set T := topological_order (nodes.map Node.id)
            (buildAdjacency edges).indegree (buildAdjacency edges).outbound
            (outbound_closure hv) with hT
          cases hTeq : T with
          | error e =>
              rw [hTeq] at h
              dsimp only at h
              have he := Except.error.inj h
              have := topological_order_error_shape (hT ▸ hTeq)
              exact ⟨_, he ▸ this⟩
          | ok order =>
              rw [hTeq] at h
              dsimp only at h
              set V := validate_connectivity
                ((nodes.filter fun node => node.type == NodeType.input).head (by
                  intro hnil
                  rw [hnil] at hc1
                  simp at hc1)).id
                ((nodes.filter fun node => node.type == NodeType.output).head (by
                  intro hnil
                  rw [hnil] at hc2
                  simp at hc2)).id
                (buildAdjacency edges).outbound (buildAdjacency edges).inbound
                (nodes.map Node.id)
                (outbound_closure hv) (inbound_closure hv) with hV
              cases hVeq : V with
              | error e =>
                  rw [hVeq] at h
                  dsimp only at h
                  have he := Except.error.inj h
                  have := validate_connectivity_error_shape (hV ▸ hVeq)
                  exact ⟨_, he ▸ this⟩
              | ok u =>
                  rw [hVeq] at h
                  exact absurd h (by simp)
        · rw [dif_neg hv] at h
          exact ⟨_, (Except.error.inj h).symm⟩

/-- Edge-level reformulation of `topological_order_ok` for a built graph. -/
theorem build_topological_order_spec (nodes : List Node) (edges : List Edge)
    (ctx : GraphContext) (hids : (nodes.map Node.id).Nodup)
    (hok : build_graph_context nodes edges = .ok ctx) :
    ctx.topological_order.Perm (nodes.map Node.id)
      ∧ ∀ e ∈ edges, ctx.topological_order.indexOf e.source_node_id
          < ctx.topological_order.indexOf e.target_node_id := by
  obtain ⟨hv, htopo, -, -, -, -, -, -, -, -⟩ := build_graph_context_ok_inv hok
  have hspec := topological_order_ok (nodes.map Node.id)
    (buildAdjacency edges).indegree (buildAdjacency edges).outbound
    (outbound_closure hv) ctx.topological_order hids
    (buildAdjacency_indeg_countInto (nodes.map Node.id) edges hids hv) htopo
  refine ⟨hspec.1, ?_⟩
  intro e he
  have hsrc := (edgesValid_sound hv e he).1
  have hmem : e.target_node_id ∈ (buildAdjacency edges).outbound e.source_node_id := by
    rw [buildAdjacency_outbound]
    exact mem_outboundOf.mpr ⟨e, he, rfl, rfl⟩
  exact hspec.2 e.source_node_id hsrc e.target_node_id hmem

/-- A directed edge step of the workflow graph (used to state cycles and
reachability over the persisted edge set). -/
def EdgeStep (edges : List Edge) (a b : Nat) : Prop :=
  ∃ e ∈ edges, e.source_node_id = a ∧ e.target_node_id = b

/-- A reversed edge step (reachability along `inbound`). -/
def EdgeStepRev (edges : List Edge) (a b : Nat) : Prop :=
  ∃ e ∈ edges, e.target_node_id = a ∧ e.source_node_id = b

/-- **C1**: For every node set with exactly one INPUT and one OUTPUT node
whose edge set is acyclic and passes connectivity validation — that is,
whenever graph building returns a context — the `topological_order` of the
returned context is a permutation of all node ids (each id appears exactly
once), and for every edge `(s, t)` the position of `s` in the order is
strictly less than the position of `t`. -/
theorem c1_topological_order_perm_edge_order
    (nodes : List Node) (edges : List Edge) (ctx : GraphContext)
    (hids : (nodes.map Node.id).Nodup)
    (hok : build_graph_context nodes edges = .ok ctx) :
    ctx.topological_order.Perm (nodes.map Node.id)
      ∧ ∀ e ∈ edges, ctx.topological_order.indexOf e.source_node_id
          < ctx.topological_order.indexOf e.target_node_id :=
  build_topological_order_spec nodes edges ctx hids hok

/-- **C4**: For every node and edge set whose edges contain a directed cycle,
graph building fails with a graph validation error; no graph context (and
hence no topological order) is returned. -/
theorem c4_cycle_fails_graph_build
    (nodes : List Node) (edges : List Edge) (v : Nat)
    (hids : (nodes.map Node.id).Nodup)
    (hcyc : Relation.TransGen (EdgeStep edges) v v) :
    ∃ m, build_graph_context nodes edges = .error (.graphValidation m) := by
  cases hb : build_graph_context nodes edges with
  | error err =>
      obtain ⟨m, hm⟩ := build_graph_context_error_shape hb
      exact ⟨m, by rw [hm]⟩
  | ok ctx =>
      exfalso
      have hspec := build_topological_order_spec nodes edges ctx hids hb
      have hidx : ∀ a b, Relation.TransGen (EdgeStep edges) a b →
          ctx.topological_order.indexOf a < ctx.topological_order.indexOf b := by
        intro a b h
        induction h with
        | single hstep =>
            obtain ⟨e, he, hsa, htb⟩ := hstep
            have := hspec.2 e he
            rw [hsa, htb] at this
            exact this
        | tail hab hbc ih =>
            obtain ⟨e, he, hsb, htc⟩ := hbc
            have := hspec.2 e he
            rw [hsb, htc] at this
            omega
      have := hidx v v hcyc
      omega

/-- **C5**: Graph building succeeds on connectivity only when every node is
forward reachable from the input node via outbound edges and backward
reachable from the output node via inbound edges; contrapositively, whenever
some node misses either direction, graph building fails. -/
theorem c5_connectivity_both_directions
    (nodes : List Node) (edges : List Edge) (ctx : GraphContext)
    (hok : build_graph_context nodes edges = .ok ctx) :
    ∀ k ∈ nodes.map Node.id,
      Relation.ReflTransGen (EdgeStep edges) ctx.input_node_id k
      ∧ Relation.ReflTransGen (EdgeStepRev edges) ctx.output_node_id k := by
  obtain ⟨hv, -, -, -, -, hconn, -, -, -, -⟩ := build_graph_context_ok_inv hok
  have hiff := (validate_connectivity_ok_iff ctx.input_node_id ctx.output_node_id
    (buildAdjacency edges).outbound (buildAdjacency edges).inbound
    (nodes.map Node.id) (outbound_closure hv) (inbound_closure hv)).mp hconn
  intro k hk
  obtain ⟨h1, h2⟩ := hiff k hk
  constructor
  · refine Relation.ReflTransGen.mono ?_ h1
    intro a b hab
    rw [buildAdjacency_outbound] at hab
    obtain ⟨e, he, hsa, htb⟩ := mem_outboundOf.mp hab
    exact ⟨e, he, hsa, htb⟩
  · refine Relation.ReflTransGen.mono ?_ h2
    intro a b hab
    rw [buildAdjacency_inbound] at hab
    obtain ⟨e, he, hta, hsb⟩ := mem_inboundOf.mp hab
    exact ⟨e, he, hta, hsb⟩

/-- **C6**: With zero or at least two INPUT nodes, or zero or at least two
OUTPUT nodes, graph building fails with one of the descriptive count errors
(raised before the topological sort or any other validation is attempted),
and no context is returned. -/
theorem c6_count_validation_fails (nodes : List Node) (edges : List Edge)
    (h : (nodes.filter fun node => node.type == NodeType.input).length ≠ 1
      ∨ (nodes.filter fun node => node.type == NodeType.output).length ≠ 1) :
    ∃ m, build_graph_context nodes edges = .error (.graphValidation m)
      ∧ (m = "Workflow must contain at least one node"
        ∨ m = "Workflow must contain exactly one input node"
        ∨ m = "Workflow must contain exactly one output node") := by
  unfold build_graph_context
  by_cases hempty : nodes.isEmpty
  · rw [if_pos hempty]
    exact ⟨_, rfl, Or.inl rfl⟩
  · rw [if_neg hempty]
    by_cases hc1 : (nodes.filter fun node => node.type == NodeType.input).length ≠ 1
    · rw [dif_pos hc1]
      exact ⟨_, rfl, Or.inr (Or.inl rfl)⟩
    · rw [dif_neg hc1]
      have hc2 : (nodes.filter fun node => node.type == NodeType.output).length ≠ 1 := by
        rcases h with h | h
        · exact absurd h hc1
        · exact h
      rw [dif_pos hc2]
      exact ⟨_, rfl, Or.inr (Or.inr rfl)⟩

/-- Witness for C4: the one-node self-loop `3 → 3` on an otherwise valid
node set makes graph building fail. -/
theorem c4_cycle_fails_graph_build_witness :
    ∃ m, build_graph_context
      [⟨1, NodeType.input, []⟩, ⟨2, NodeType.output, []⟩, ⟨3, NodeType.llm, []⟩]
      [⟨3, 3⟩] = .error (.graphValidation m) :=
  c4_cycle_fails_graph_build _ _ 3 (by decide)
    (Relation.TransGen.single ⟨⟨3, 3⟩, by simp, rfl, rfl⟩)

/-- Witness for C6: two INPUT nodes make graph building fail with a count
error. -/
theorem c6_count_validation_fails_witness :
    ∃ m, build_graph_context
      [⟨1, NodeType.input, []⟩, ⟨2, NodeType.input, []⟩] []
      = .error (.graphValidation m)
      ∧ (m = "Workflow must contain at least one node"
        ∨ m = "Workflow must contain exactly one input node"
        ∨ m = "Workflow must contain exactly one output node") :=
  c6_count_validation_fails _ _ (Or.inl (by decide))

/-! ### Concrete evaluation of the two-node `Input → Output` workflow -/

theorem kahn_two_node_eval :
    kahnLoop [1, 2] (buildAdjacency [(⟨1, 2⟩ : Edge)]).outbound
      (outbound_closure (by decide)) [1] []
      (buildAdjacency [(⟨1, 2⟩ : Edge)]).indegree = [1, 2] := by
  rw [kahnLoop_cons]
  have hp1 : (processTargets ((buildAdjacency [(⟨1, 2⟩ : Edge)]).outbound 1) []
      (buildAdjacency [(⟨1, 2⟩ : Edge)]).indegree).1 = [2] := by decide
  rw [hp1]
  rw [kahnLoop_cons]
  have hp2 : (processTargets ((buildAdjacency [(⟨1, 2⟩ : Edge)]).outbound 2) []
      (processTargets ((buildAdjacency [(⟨1, 2⟩ : Edge)]).outbound 1) []
        (buildAdjacency [(⟨1, 2⟩ : Edge)]).indegree).2).1 = [] := by decide
  rw [hp2, kahnLoop_nil]
  rfl

theorem topological_order_two_node_eval :
    topological_order [1, 2] (buildAdjacency [(⟨1, 2⟩ : Edge)]).indegree
      (buildAdjacency [(⟨1, 2⟩ : Edge)]).outbound (outbound_closure (by decide))
      = .ok [1, 2] := by
  rw [topological_order]
  have hfilter : ([1, 2].filter fun k =>
      (buildAdjacency [(⟨1, 2⟩ : Edge)]).indegree k == 0) = [1] := by decide
  rw [hfilter, kahn_two_node_eval]
  simp

theorem collect_reachable_two_node_outbound :
    collect_reachable [1, 2] (buildAdjacency [(⟨1, 2⟩ : Edge)]).outbound
      (outbound_closure (by decide)) 1 = [1, 2] := by
  rw [collect_reachable, collectLoop_cons, if_neg (by simp)]
  have h1 : (((buildAdjacency [(⟨1, 2⟩ : Edge)]).outbound 1).reverse ++ [])
      = [2] := by decide
  rw [h1, collectLoop_cons, if_neg (by simp)]
  have h2 : (((buildAdjacency [(⟨1, 2⟩ : Edge)]).outbound 2).reverse ++ [])
      = [] := by decide
  rw [h2, collectLoop_nil]
  rfl

theorem collect_reachable_two_node_inbound :
    collect_reachable [1, 2] (buildAdjacency [(⟨1, 2⟩ : Edge)]).inbound
      (inbound_closure (by decide)) 2 = [2, 1] := by
  rw [collect_reachable, collectLoop_cons, if_neg (by simp)]
  have h1 : (((buildAdjacency [(⟨1, 2⟩ : Edge)]).inbound 2).reverse ++ [])
      = [1] := by decide
  rw [h1, collectLoop_cons, if_neg (by simp)]
  have h2 : (((buildAdjacency [(⟨1, 2⟩ : Edge)]).inbound 1).reverse ++ [])
      = [] := by decide
  rw [h2, collectLoop_nil]
  rfl

theorem validate_connectivity_two_node_eval :
    validate_connectivity 1 2 (buildAdjacency [(⟨1, 2⟩ : Edge)]).outbound
      (buildAdjacency [(⟨1, 2⟩ : Edge)]).inbound [1, 2]
      (outbound_closure (by decide)) (inbound_closure (by decide)) = .ok () := by
  rw [validate_connectivity]
  rw [collect_reachable_two_node_outbound, collect_reachable_two_node_inbound]
  rfl

theorem topological_order_two_node_gen (d1 d2 : NodeData)
    (hout : ∀ k, ∀ t ∈ (buildAdjacency [(⟨1, 2⟩ : Edge)]).outbound k,
      t ∈ List.map Node.id
        ([⟨1, NodeType.input, d1⟩, ⟨2, NodeType.output, d2⟩] : List Node)) :
    topological_order
      (List.map Node.id
        ([⟨1, NodeType.input, d1⟩, ⟨2, NodeType.output, d2⟩] : List Node))
      (buildAdjacency [(⟨1, 2⟩ : Edge)]).indegree
      (buildAdjacency [(⟨1, 2⟩ : Edge)]).outbound hout = .ok [1, 2] :=
  topological_order_two_node_eval

theorem validate_connectivity_two_node_gen (d1 d2 : NodeData)
    (hin : List.filter (fun node => node.type == NodeType.input)
      ([⟨1, NodeType.input, d1⟩, ⟨2, NodeType.output, d2⟩] : List Node) ≠ [])
    (hout : List.filter (fun node => node.type == NodeType.output)
      ([⟨1, NodeType.input, d1⟩, ⟨2, NodeType.output, d2⟩] : List Node) ≠ [])
    (ho : ∀ k, ∀ t ∈ (buildAdjacency [(⟨1, 2⟩ : Edge)]).outbound k,
      t ∈ List.map Node.id
        ([⟨1, NodeType.input, d1⟩, ⟨2, NodeType.output, d2⟩] : List Node))
    (hi : ∀ k, ∀ t ∈ (buildAdjacency [(⟨1, 2⟩ : Edge)]).inbound k,
      t ∈ List.map Node.id
        ([⟨1, NodeType.input, d1⟩, ⟨2, NodeType.output, d2⟩] : List Node)) :
    validate_connectivity
      ((List.filter (fun node => node.type == NodeType.input)
        ([⟨1, NodeType.input, d1⟩, ⟨2, NodeType.output, d2⟩] : List Node)).head hin).id
      ((List.filter (fun node => node.type == NodeType.output)
        ([⟨1, NodeType.input, d1⟩, ⟨2, NodeType.output, d2⟩] : List Node)).head hout).id
      (buildAdjacency [(⟨1, 2⟩ : Edge)]).outbound
      (buildAdjacency [(⟨1, 2⟩ : Edge)]).inbound
      (List.map Node.id
        ([⟨1, NodeType.input, d1⟩, ⟨2, NodeType.output, d2⟩] : List Node))
      ho hi = .ok () :=
  validate_connectivity_two_node_eval

theorem build_two_node_eval (d1 d2 : NodeData) :
    build_graph_context [⟨1, NodeType.input, d1⟩, ⟨2, NodeType.output, d2⟩]
      [⟨1, 2⟩]
      = .ok { input_node_id := 1
              output_node_id := 2
              nodes_by_id :=
                nodesById [⟨1, NodeType.input, d1⟩, ⟨2, NodeType.output, d2⟩]
              outbound := (buildAdjacency [(⟨1, 2⟩ : Edge)]).outbound
              inbound := (buildAdjacency [(⟨1, 2⟩ : Edge)]).inbound
              topological_order := [1, 2] } := by
  rw [build_graph_context]
  rw [if_neg (by simp), dif_neg (by simp), dif_neg (by simp), dif_pos (by rfl)]
  rw [topological_order_two_node_gen d1 d2]
  dsimp only
  rw [validate_connectivity_two_node_gen d1 d2]
  rfl

theorem run_execution_two_node (providers : List ProviderRow)
    (chat : Int → String → List ChatMessage → ChatOutcome) (owner : Nat)
    (v : String) (d1 d2 : NodeData) :
    run_execution providers chat owner
      [⟨1, NodeType.input, d1⟩, ⟨2, NodeType.output, d2⟩] [⟨1, 2⟩]
      (some [("value", PyValue.str v)]) = .ok ⟨v⟩ := by
  rw [run_execution, build_two_node_eval]
  rfl

/-- **C7**: The Input node handler returns the run's `input_value` verbatim,
the Output node handler returns `parent_values` joined with a newline;
consequently, the two-node `Input → Output` run with input payload
`{"value": v}` returns output payload `{"value": v}` and finalizes with
status SUCCESS and a cleared error, for any string `v`. -/
theorem c7_input_output_handlers_and_scenario :
    (∀ context, inputHandlerExecute context = context.input_value)
    ∧ (∀ context, outputHandlerExecute context
        = String.intercalate "\n" context.parent_values)
    ∧ ∀ (providers : List ProviderRow)
        (chat : Int → String → List ChatMessage → ChatOutcome) (owner : Nat)
        (v : String) (d1 d2 : NodeData) (record : ExecutionRecord) (now : Nat),
        run_execution providers chat owner
          [⟨1, NodeType.input, d1⟩, ⟨2, NodeType.output, d2⟩] [⟨1, 2⟩]
          (some [("value", PyValue.str v)]) = .ok ⟨v⟩
        ∧ (execute_and_finalize (run_execution providers chat owner
            [⟨1, NodeType.input, d1⟩, ⟨2, NodeType.output, d2⟩] [⟨1, 2⟩]
            (some [("value", PyValue.str v)])) record now).1.status
            = ExecutionStatus.success
        ∧ (execute_and_finalize (run_execution providers chat owner
            [⟨1, NodeType.input, d1⟩, ⟨2, NodeType.output, d2⟩] [⟨1, 2⟩]
            (some [("value", PyValue.str v)])) record now).1.output_data = some ⟨v⟩
        ∧ (execute_and_finalize (run_execution providers chat owner
            [⟨1, NodeType.input, d1⟩, ⟨2, NodeType.output, d2⟩] [⟨1, 2⟩]
            (some [("value", PyValue.str v)])) record now).1.error = none := by
  refine ⟨fun _ => rfl, fun _ => rfl, ?_⟩
  intro providers chat owner v d1 d2 record now
  have hrun := run_execution_two_node providers chat owner v d1 d2
  refine ⟨hrun, ?_, ?_, ?_⟩ <;> rw [hrun] <;> rfl

/-- **C3**: `execute_and_finalize` always leaves the execution record in a
terminal state: a successful run is persisted as SUCCESS with the output
payload, a cleared error and `finished_at` set and nothing is re-raised; a
failed run is persisted as FAILED with the raised error's message stored
verbatim and `finished_at` set, and the error is re-raised to the caller. -/
theorem c3_execute_and_finalize_terminal (providers : List ProviderRow)
    (chat : Int → String → List ChatMessage → ChatOutcome) (owner : Nat)
    (nodes : List Node) (edges : List Edge) (input_data : Option NodeData)
    (record : ExecutionRecord) (now : Nat)
    (hrunning : record.status = ExecutionStatus.running) :
    (∀ out, run_execution providers chat owner nodes edges input_data = .ok out →
      (execute_and_finalize
          (run_execution providers chat owner nodes edges input_data)
          record now).1
        = { record with
              status := ExecutionStatus.success
              output_data := some out
              error := none
              finished_at := some now }
      ∧ (execute_and_finalize
          (run_execution providers chat owner nodes edges input_data)
          record now).2 = none)
    ∧ (∀ e, run_execution providers chat owner nodes edges input_data = .error e →
      (execute_and_finalize
          (run_execution providers chat owner nodes edges input_data)
          record now).1
        = { record with
              status := ExecutionStatus.failed
              error := some (ExecError.message e)
              finished_at := some now }
      ∧ (execute_and_finalize
          (run_execution providers chat owner nodes edges input_data)
          record now).2 = some e)
    ∧ ((execute_and_finalize
          (run_execution providers chat owner nodes edges input_data)
          record now).1.status = ExecutionStatus.success
      ∨ (execute_and_finalize
          (run_execution providers chat owner nodes edges input_data)
          record now).1.status = ExecutionStatus.failed) := by
  refine ⟨?_, ?_, ?_⟩
  · intro out hout
    rw [hout]
    exact ⟨rfl, rfl⟩
  · intro e he
    rw [he]
    exact ⟨rfl, rfl⟩
  · cases hres : run_execution providers chat owner nodes edges input_data with
    | ok out =>
        left
        rfl
    | error e =>
        right
        rfl

/-- Witness for C3: the two-node scenario with a RUNNING record finalizes as
SUCCESS with the output payload and no re-raised error. -/
theorem c3_execute_and_finalize_terminal_witness :
    (⟨ExecutionStatus.running, none, none, none⟩ : ExecutionRecord).status
        = ExecutionStatus.running
    ∧ ((execute_and_finalize
          (run_execution [] (fun _ _ _ => ChatOutcome.transportError) 7
            [⟨1, NodeType.input, []⟩, ⟨2, NodeType.output, []⟩] [⟨1, 2⟩]
            (some [("value", PyValue.str "hello")]))
          ⟨ExecutionStatus.running, none, none, none⟩ 5).1
        = { status := ExecutionStatus.success
            output_data := some ⟨"hello"⟩
            error := none
            finished_at := some 5 }
      ∧ (execute_and_finalize
          (run_execution [] (fun _ _ _ => ChatOutcome.transportError) 7
            [⟨1, NodeType.input, []⟩, ⟨2, NodeType.output, []⟩] [⟨1, 2⟩]
            (some [("value", PyValue.str "hello")]))
          ⟨ExecutionStatus.running, none, none, none⟩ 5).2 = none) := by
  refine ⟨rfl, ?_⟩
  exact (c3_execute_and_finalize_terminal [] (fun _ _ _ => ChatOutcome.transportError) 7
    [⟨1, NodeType.input, []⟩, ⟨2, NodeType.output, []⟩] [⟨1, 2⟩]
    (some [("value", PyValue.str "hello")])
    ⟨ExecutionStatus.running, none, none, none⟩ 5 rfl).1 ⟨"hello"⟩
    (run_execution_two_node [] (fun _ _ _ => ChatOutcome.transportError) 7 "hello" [] [])

/-- Witness for C1: the two-node `Input → Output` workflow builds, and the
returned topological order `[1, 2]` is a permutation of the node ids that
respects the single edge. -/
theorem c1_topological_order_perm_edge_order_witness :
    (GraphContext.topological_order
        { input_node_id := 1
          output_node_id := 2
          nodes_by_id :=
            nodesById [⟨1, NodeType.input, []⟩, ⟨2, NodeType.output, []⟩]
          outbound := (buildAdjacency [(⟨1, 2⟩ : Edge)]).outbound
          inbound := (buildAdjacency [(⟨1, 2⟩ : Edge)]).inbound
          topological_order := [1, 2] }).Perm
      (List.map Node.id
        ([⟨1, NodeType.input, []⟩, ⟨2, NodeType.output, []⟩] : List Node))
    ∧ ∀ e ∈ [(⟨1, 2⟩ : Edge)],
        (GraphContext.topological_order
          { input_node_id := 1
            output_node_id := 2
            nodes_by_id :=
              nodesById [⟨1, NodeType.input, []⟩, ⟨2, NodeType.output, []⟩]
            outbound := (buildAdjacency [(⟨1, 2⟩ : Edge)]).outbound
            inbound := (buildAdjacency [(⟨1, 2⟩ : Edge)]).inbound
            topological_order := [1, 2] }).indexOf e.source_node_id
        < (GraphContext.topological_order
          { input_node_id := 1
            output_node_id := 2
            nodes_by_id :=
              nodesById [⟨1, NodeType.input, []⟩, ⟨2, NodeType.output, []⟩]
            outbound := (buildAdjacency [(⟨1, 2⟩ : Edge)]).outbound
            inbound := (buildAdjacency [(⟨1, 2⟩ : Edge)]).inbound
            topological_order := [1, 2] }).indexOf e.target_node_id :=
  c1_topological_order_perm_edge_order
    [⟨1, NodeType.input, []⟩, ⟨2, NodeType.output, []⟩] [⟨1, 2⟩] _
    (by decide) (build_two_node_eval [] [])

/-- Witness for C5: in the built two-node context, both node ids are forward
reachable from the input node and backward reachable from the output node. -/
theorem c5_connectivity_both_directions_witness :
    Relation.ReflTransGen (EdgeStep [(⟨1, 2⟩ : Edge)])
      (GraphContext.input_node_id
        { input_node_id := 1
          output_node_id := 2
          nodes_by_id :=
            nodesById [⟨1, NodeType.input, []⟩, ⟨2, NodeType.output, []⟩]
          outbound := (buildAdjacency [(⟨1, 2⟩ : Edge)]).outbound
          inbound := (buildAdjacency [(⟨1, 2⟩ : Edge)]).inbound
          topological_order := [1, 2] }) 2
    ∧ Relation.ReflTransGen (EdgeStepRev [(⟨1, 2⟩ : Edge)])
      (GraphContext.output_node_id
        { input_node_id := 1
          output_node_id := 2
          nodes_by_id :=
            nodesById [⟨1, NodeType.input, []⟩, ⟨2, NodeType.output, []⟩]
          outbound := (buildAdjacency [(⟨1, 2⟩ : Edge)]).outbound
          inbound := (buildAdjacency [(⟨1, 2⟩ : Edge)]).inbound
          topological_order := [1, 2] }) 2 :=
  c5_connectivity_both_directions
    [⟨1, NodeType.input, []⟩, ⟨2, NodeType.output, []⟩] [⟨1, 2⟩] _
    (build_two_node_eval [] []) 2 (by decide)

/-! ### Concrete evaluation of the `Input → WebSearch → Output` workflow -/

theorem kahn_three_node_eval :
    kahnLoop [1, 2, 3] (buildAdjacency [(⟨1, 2⟩ : Edge), ⟨2, 3⟩]).outbound
      (outbound_closure (by decide)) [1] []
      (buildAdjacency [(⟨1, 2⟩ : Edge), ⟨2, 3⟩]).indegree = [1, 2, 3] := by
  rw [kahnLoop_cons]
  have hp1 : (processTargets
      ((buildAdjacency [(⟨1, 2⟩ : Edge), ⟨2, 3⟩]).outbound 1) []
      (buildAdjacency [(⟨1, 2⟩ : Edge), ⟨2, 3⟩]).indegree).1 = [2] := by decide
  rw [hp1, kahnLoop_cons]
  have hp2 : (processTargets
      ((buildAdjacency [(⟨1, 2⟩ : Edge), ⟨2, 3⟩]).outbound 2) []
      (processTargets ((buildAdjacency [(⟨1, 2⟩ : Edge), ⟨2, 3⟩]).outbound 1) []
        (buildAdjacency [(⟨1, 2⟩ : Edge), ⟨2, 3⟩]).indegree).2).1 = [3] := by decide
  rw [hp2, kahnLoop_cons]
  have hp3 : (processTargets
      ((buildAdjacency [(⟨1, 2⟩ : Edge), ⟨2, 3⟩]).outbound 3) []
      (processTargets ((buildAdjacency [(⟨1, 2⟩ : Edge), ⟨2, 3⟩]).outbound 2) []
        (processTargets ((buildAdjacency [(⟨1, 2⟩ : Edge), ⟨2, 3⟩]).outbound 1) []
          (buildAdjacency [(⟨1, 2⟩ : Edge), ⟨2, 3⟩]).indegree).2).2).1 = [] := by
    decide
  rw [hp3, kahnLoop_nil]
  rfl

theorem topological_order_three_node_eval :
    topological_order [1, 2, 3]
      (buildAdjacency [(⟨1, 2⟩ : Edge), ⟨2, 3⟩]).indegree
      (buildAdjacency [(⟨1, 2⟩ : Edge), ⟨2, 3⟩]).outbound
      (outbound_closure (by decide)) = .ok [1, 2, 3] := by
  rw [topological_order]
  have hfilter : ([1, 2, 3].filter fun k =>
      (buildAdjacency [(⟨1, 2⟩ : Edge), ⟨2, 3⟩]).indegree k == 0) = [1] := by decide
  rw [hfilter, kahn_three_node_eval]
  simp

theorem collect_reachable_three_node_outbound :
    collect_reachable [1, 2, 3]
      (buildAdjacency [(⟨1, 2⟩ : Edge), ⟨2, 3⟩]).outbound
      (outbound_closure (by decide)) 1 = [1, 2, 3] := by
  rw [collect_reachable, collectLoop_cons, if_neg (by simp)]
  have h1 : (((buildAdjacency [(⟨1, 2⟩ : Edge), ⟨2, 3⟩]).outbound 1).reverse ++ [])
      = [2] := by decide
  rw [h1, collectLoop_cons, if_neg (by simp)]
  have h2 : (((buildAdjacency [(⟨1, 2⟩ : Edge), ⟨2, 3⟩]).outbound 2).reverse ++ [])
      = [3] := by decide
  rw [h2, collectLoop_cons, if_neg (by simp)]
  have h3 : (((buildAdjacency [(⟨1, 2⟩ : Edge), ⟨2, 3⟩]).outbound 3).reverse ++ [])
      = [] := by decide
  rw [h3, collectLoop_nil]
  rfl

theorem collect_reachable_three_node_inbound :
    collect_reachable [1, 2, 3]
      (buildAdjacency [(⟨1, 2⟩ : Edge), ⟨2, 3⟩]).inbound
      (inbound_closure (by decide)) 3 = [3, 2, 1] := by
  rw [collect_reachable, collectLoop_cons, if_neg (by simp)]
  have h1 : (((buildAdjacency [(⟨1, 2⟩ : Edge), ⟨2, 3⟩]).inbound 3).reverse ++ [])
      = [2] := by decide
  rw [h1, collectLoop_cons, if_neg (by simp)]
  have h2 : (((buildAdjacency [(⟨1, 2⟩ : Edge), ⟨2, 3⟩]).inbound 2).reverse ++ [])
      = [1] := by decide
  rw [h2, collectLoop_cons, if_neg (by simp)]
  have h3 : (((buildAdjacency [(⟨1, 2⟩ : Edge), ⟨2, 3⟩]).inbound 1).reverse ++ [])
      = [] := by decide
  rw [h3, collectLoop_nil]
  rfl

theorem validate_connectivity_three_node_eval :
    validate_connectivity 1 3
      (buildAdjacency [(⟨1, 2⟩ : Edge), ⟨2, 3⟩]).outbound
      (buildAdjacency [(⟨1, 2⟩ : Edge), ⟨2, 3⟩]).inbound [1, 2, 3]
      (outbound_closure (by decide)) (inbound_closure (by decide)) = .ok () := by
  rw [validate_connectivity]
  rw [collect_reachable_three_node_outbound, collect_reachable_three_node_inbound]
  rfl

theorem topological_order_three_node_gen (d1 d2 d3 : NodeData)
    (hout : ∀ k, ∀ t ∈ (buildAdjacency [(⟨1, 2⟩ : Edge), ⟨2, 3⟩]).outbound k,
      t ∈ List.map Node.id
        ([⟨1, NodeType.input, d1⟩, ⟨2, NodeType.web_search, d2⟩,
          ⟨3, NodeType.output, d3⟩] : List Node)) :
    topological_order
      (List.map Node.id
        ([⟨1, NodeType.input, d1⟩, ⟨2, NodeType.web_search, d2⟩,
          ⟨3, NodeType.output, d3⟩] : List Node))
      (buildAdjacency [(⟨1, 2⟩ : Edge), ⟨2, 3⟩]).indegree
      (buildAdjacency [(⟨1, 2⟩ : Edge), ⟨2, 3⟩]).outbound hout = .ok [1, 2, 3] :=
  topological_order_three_node_eval

theorem validate_connectivity_three_node_gen (d1 d2 d3 : NodeData)
    (hin : List.filter (fun node => node.type == NodeType.input)
      ([⟨1, NodeType.input, d1⟩, ⟨2, NodeType.web_search, d2⟩,
        ⟨3, NodeType.output, d3⟩] : List Node) ≠ [])
    (hout : List.filter (fun node => node.type == NodeType.output)
      ([⟨1, NodeType.input, d1⟩, ⟨2, NodeType.web_search, d2⟩,
        ⟨3, NodeType.output, d3⟩] : List Node) ≠ [])
    (ho : ∀ k, ∀ t ∈ (buildAdjacency [(⟨1, 2⟩ : Edge), ⟨2, 3⟩]).outbound k,
      t ∈ List.map Node.id
        ([⟨1, NodeType.input, d1⟩, ⟨2, NodeType.web_search, d2⟩,
          ⟨3, NodeType.output, d3⟩] : List Node))
    (hi : ∀ k, ∀ t ∈ (buildAdjacency [(⟨1, 2⟩ : Edge), ⟨2, 3⟩]).inbound k,
      t ∈ List.map Node.id
        ([⟨1, NodeType.input, d1⟩, ⟨2, NodeType.web_search, d2⟩,
          ⟨3, NodeType.output, d3⟩] : List Node)) :
    validate_connectivity
      ((List.filter (fun node => node.type == NodeType.input)
        ([⟨1, NodeType.input, d1⟩, ⟨2, NodeType.web_search, d2⟩,
          ⟨3, NodeType.output, d3⟩] : List Node)).head hin).id
      ((List.filter (fun node => node.type == NodeType.output)
        ([⟨1, NodeType.input, d1⟩, ⟨2, NodeType.web_search, d2⟩,
          ⟨3, NodeType.output, d3⟩] : List Node)).head hout).id
      (buildAdjacency [(⟨1, 2⟩ : Edge), ⟨2, 3⟩]).outbound
      (buildAdjacency [(⟨1, 2⟩ : Edge), ⟨2, 3⟩]).inbound
      (List.map Node.id
        ([⟨1, NodeType.input, d1⟩, ⟨2, NodeType.web_search, d2⟩,
          ⟨3, NodeType.output, d3⟩] : List Node))
      ho hi = .ok () :=
  validate_connectivity_three_node_eval

theorem build_three_node_eval (d1 d2 d3 : NodeData) :
    build_graph_context
      [⟨1, NodeType.input, d1⟩, ⟨2, NodeType.web_search, d2⟩,
        ⟨3, NodeType.output, d3⟩] [⟨1, 2⟩, ⟨2, 3⟩]
      = .ok { input_node_id := 1
              output_node_id := 3
              nodes_by_id := nodesById
                [⟨1, NodeType.input, d1⟩, ⟨2, NodeType.web_search, d2⟩,
                  ⟨3, NodeType.output, d3⟩]
              outbound := (buildAdjacency [(⟨1, 2⟩ : Edge), ⟨2, 3⟩]).outbound
              inbound := (buildAdjacency [(⟨1, 2⟩ : Edge), ⟨2, 3⟩]).inbound
              topological_order := [1, 2, 3] } := by
  rw [build_graph_context]
  rw [if_neg (by simp), dif_neg (by simp), dif_neg (by simp), dif_pos (by rfl)]
  rw [topological_order_three_node_gen d1 d2 d3]
  dsimp only
  rw [validate_connectivity_three_node_gen d1 d2 d3]
  rfl

/-- **C2** (code bug in the run loop): `NodeHandlerRegistry` maps
`WEB_SEARCH` to the WebSearch handler (and has a handler for each of the
four node types), but `ExecutionUsecase.run_execution` never dispatches
through the registry — its loop hard-codes INPUT, LLM and OUTPUT and fails
any other node type, so a WEB_SEARCH node reached during the run loop raises
`Unsupported node type: web_search` instead of executing the WebSearch
handler. -/
theorem c2_web_search_unsupported_in_run_loop (providers : List ProviderRow)
    (chat : Int → String → List ChatMessage → ChatOutcome) (owner : Nat)
    (v : String) (d1 d2 d3 : NodeData) :
    registryHandlers NodeType.web_search = some HandlerKind.webSearchHandler
    ∧ (∀ node_type, registryHandlers node_type ≠ none)
    ∧ run_execution providers chat owner
        [⟨1, NodeType.input, d1⟩, ⟨2, NodeType.web_search, d2⟩,
          ⟨3, NodeType.output, d3⟩] [⟨1, 2⟩, ⟨2, 3⟩]
        (some [("value", PyValue.str v)])
      = .error (.graphValidation "Unsupported node type: web_search") := by
  refine ⟨rfl, ?_, ?_⟩
  · intro node_type
    cases node_type <;> simp [registryHandlers]
  · rw [run_execution, build_three_node_eval]
    rfl

/-! ### The LLM node handler: validation and transport-error mapping -/

theorem string_take_length_le (s : String) (n : Nat) : (s.take n).length ≤ n := by
  rw [String.take_eq]
  show (s.data.take n).length ≤ n
  exact List.length_take_le n s.data

theorem string_take_data_prefix (s : String) (n : Nat) :
    (s.take n).data <+: s.data := by
  rw [String.take_eq]
  exact List.take_prefix n s.data

theorem execute_llm_node_accepted (providers : List ProviderRow)
    (chat : Int → String → List ChatMessage → ChatOutcome)
    (workflow_owner_id : Nat) (node_data : NodeData)
    (parent_values : List String) (i : Int) (m sp : String) (p : ProviderRow)
    (hgi : NodeData.get node_data "llm_provider_id" = some (.int i))
    (hipos : 0 < i)
    (hgm : NodeData.get node_data "model" = some (.str m)) (hm : m ≠ "")
    (hgsp : NodeData.getD node_data "system_prompt" (.str "") = .str sp)
    (hfind : providerGetBy providers i workflow_owner_id = some p) :
    execute_llm_node providers chat workflow_owner_id node_data parent_values
      = match chat i m [⟨"system", sp⟩,
            ⟨"user", String.intercalate "\n" parent_values⟩] with
        | .success content => .ok content
        | .timeout => .error (.llmConnection
            "LLM provider request timed out while running execution")
        | .statusError status_code body =>
            let detail := body.trim
            let message := s!"LLM provider returned {status_code}"
            if detail ≠ "" then
              let excerpt := detail.take 300
              .error (.llmConnection s!"{message}: {excerpt}")
            else
              .error (.llmConnection message)
        | .transportError =>
            .error (.llmConnection "LLM provider is unreachable") := by
  unfold execute_llm_node
  rw [hgi]
  dsimp only
  rw [if_neg (by omega)]
  rw [hgm]
  dsimp only
  rw [if_neg hm]
  rw [hgsp]
  dsimp only
  rw [hfind]

theorem execute_llm_node_rejected (providers : List ProviderRow)
    (chat : Int → String → List ChatMessage → ChatOutcome)
    (workflow_owner_id : Nat) (node_data : NodeData)
    (parent_values : List String)
    (hna : ¬ llmNodeConfigAccepted providers workflow_owner_id node_data) :
    ∃ msg, execute_llm_node providers chat workflow_owner_id node_data
      parent_values = .error (.graphValidation msg) := by
  unfold execute_llm_node
  cases hgi : NodeData.get node_data "llm_provider_id" with
  | none => exact ⟨_, rfl⟩
  | some v =>
    cases v with
    | str s => exact ⟨_, rfl⟩
    | other => exact ⟨_, rfl⟩
    | int i =>
      dsimp only
      by_cases hi : i ≤ 0
      · rw [if_pos hi]
        exact ⟨_, rfl⟩
      · rw [if_neg hi]
        cases hgm : NodeData.get node_data "model" with
        | none => exact ⟨_, rfl⟩
        | some w =>
          cases w with
          | int j => exact ⟨_, rfl⟩
          | other => exact ⟨_, rfl⟩
          | str m =>
            dsimp only
            by_cases hm : m = ""
            · rw [if_pos hm]
              exact ⟨_, rfl⟩
            · rw [if_neg hm]
              cases hgsp : NodeData.getD node_data "system_prompt" (.str "") with
              | int j => exact ⟨_, rfl⟩
              | other => exact ⟨_, rfl⟩
              | str sp =>
                cases hfind : providerGetBy providers i workflow_owner_id with
                | none => exact ⟨_, rfl⟩
                | some p =>
                  exact absurd
                    ⟨i, hgi, by omega, ⟨m, hgm, hm⟩, ⟨sp, hgsp⟩, ⟨p, hfind⟩⟩ hna

/-- **C8**: `_execute_llm_node` fails with a graph-validation error exactly
when the node configuration is rejected (`llm_provider_id` not a positive
`int`, `model` not a non-empty `str`, `system_prompt` present but not a
`str` after defaulting to `""`, or no provider with that id owned by the
workflow owner); under an accepted configuration the chat result is
returned on success, and each transport failure maps to an
`LLMProviderConnectionError`: a fixed timeout message, a fixed unreachable
message, and for an HTTP status error a message carrying the status code
plus, when the stripped response body is non-empty, an excerpt of at most
300 characters that is a prefix of the stripped body. -/
theorem c8_llm_validation_and_transport_mapping (providers : List ProviderRow)
    (chat : Int → String → List ChatMessage → ChatOutcome)
    (workflow_owner_id : Nat) (node_data : NodeData)
    (parent_values : List String) :
    ((∃ msg, execute_llm_node providers chat workflow_owner_id node_data
          parent_values = .error (.graphValidation msg))
      ↔ ¬ llmNodeConfigAccepted providers workflow_owner_id node_data)
  ∧ (llmNodeConfigAccepted providers workflow_owner_id node_data →
      (∀ content, execute_llm_node providers (fun _ _ _ => .success content)
          workflow_owner_id node_data parent_values = .ok content)
      ∧ execute_llm_node providers (fun _ _ _ => .timeout)
          workflow_owner_id node_data parent_values
        = .error (.llmConnection
            "LLM provider request timed out while running execution")
      ∧ (∀ (status_code : Nat) (body : String), body.trim = "" →
          execute_llm_node providers (fun _ _ _ => .statusError status_code body)
              workflow_owner_id node_data parent_values
            = .error (.llmConnection s!"LLM provider returned {status_code}"))
      ∧ (∀ (status_code : Nat) (body : String), body.trim ≠ "" →
          let message := s!"LLM provider returned {status_code}"
          ∃ excerpt : String,
            execute_llm_node providers
                (fun _ _ _ => .statusError status_code body)
                workflow_owner_id node_data parent_values
              = .error (.llmConnection s!"{message}: {excerpt}")
            ∧ excerpt.length ≤ 300 ∧ excerpt.data <+: body.trim.data)
      ∧ execute_llm_node providers (fun _ _ _ => .transportError)
          workflow_owner_id node_data parent_values
        = .error (.llmConnection "LLM provider is unreachable")) := by
  constructor
  · constructor
    · rintro ⟨msg, hmsg⟩ hacc
      obtain ⟨i, hgi, hipos, ⟨m, hgm, hm⟩, ⟨sp, hgsp⟩, ⟨p, hfind⟩⟩ := hacc
      rw [execute_llm_node_accepted providers chat workflow_owner_id node_data
        parent_values i m sp p hgi hipos hgm hm hgsp hfind] at hmsg
      cases hchat : chat i m [⟨"system", sp⟩,
          ⟨"user", String.intercalate "\n" parent_values⟩] with
      | success content => rw [hchat] at hmsg; simp at hmsg
      | timeout => rw [hchat] at hmsg; simp at hmsg
      | statusError status_code body =>
          rw [hchat] at hmsg
          dsimp only at hmsg
          by_cases hb : body.trim ≠ ""
          · rw [if_pos hb] at hmsg
            simp at hmsg
          · rw [if_neg hb] at hmsg
            simp at hmsg
      | transportError => rw [hchat] at hmsg; simp at hmsg
    · intro hna
      exact execute_llm_node_rejected providers chat workflow_owner_id
        node_data parent_values hna
  · intro hacc
    obtain ⟨i, hgi, hipos, ⟨m, hgm, hm⟩, ⟨sp, hgsp⟩, ⟨p, hfind⟩⟩ := hacc
    refine ⟨?_, ?_, ?_, ?_, ?_⟩
    · intro content
      rw [execute_llm_node_accepted providers _ workflow_owner_id node_data
        parent_values i m sp p hgi hipos hgm hm hgsp hfind]
    · rw [execute_llm_node_accepted providers _ workflow_owner_id node_data
        parent_values i m sp p hgi hipos hgm hm hgsp hfind]
    · intro status_code body hb
      rw [execute_llm_node_accepted providers _ workflow_owner_id node_data
        parent_values i m sp p hgi hipos hgm hm hgsp hfind]
      dsimp only
      rw [if_neg (not_not_intro hb)]
    · intro status_code body hb
      rw [execute_llm_node_accepted providers _ workflow_owner_id node_data
        parent_values i m sp p hgi hipos hgm hm hgsp hfind]
      dsimp only
      rw [if_pos hb]
      exact ⟨body.trim.take 300, rfl, string_take_length_le body.trim 300,
        string_take_data_prefix body.trim 300⟩
    · rw [execute_llm_node_accepted providers _ workflow_owner_id node_data
        parent_values i m sp p hgi hipos hgm hm hgsp hfind]

theorem c8_llm_validation_and_transport_mapping_witness :
    execute_llm_node [⟨3, 7⟩] (fun _ _ _ => .success "out") 7
      [("llm_provider_id", PyValue.int 3), ("model", PyValue.str "mdl")]
      ["x"] = .ok "out" := by
  have h := (c8_llm_validation_and_transport_mapping [⟨3, 7⟩]
      (fun _ _ _ => .success "out") 7
      [("llm_provider_id", PyValue.int 3), ("model", PyValue.str "mdl")]
      ["x"]).2
      ⟨3, rfl, by decide, ⟨"mdl", rfl, by decide⟩, ⟨"", rfl⟩, ⟨⟨3, 7⟩, rfl⟩⟩
  exact h.1 "out"

/-! ### The WebSearch node handler: validation, formatting and sentinel -/

theorem web_search_graphValidation_inv (outcome : SearchOutcome)
    (node_data : NodeData) (parent_values : List String) (input_value : String)
    (msg : String) (hq : buildQuery parent_values input_value ≠ "")
    (hres : web_search_execute outcome node_data parent_values input_value
      = .error (.graphValidation msg)) :
    msg = "Web search node requires max_results to be an integer in [1, 10]"
    ∧ ¬ ∃ m : Int, NodeData.get node_data "max_results" = some (.int m)
        ∧ 1 ≤ m ∧ m ≤ 10 := by
  unfold web_search_execute at hres
  dsimp only at hres
  rw [if_neg hq] at hres
  cases hget : NodeData.get node_data "max_results" with
  | none =>
      rw [hget] at hres
      dsimp only at hres
      simp only [Except.error.injEq, ExecError.graphValidation.injEq] at hres
      refine ⟨hres.symm, ?_⟩
      rintro ⟨m, hm, -, -⟩
      exact Option.noConfusion hm
  | some v =>
    cases v with
    | str s =>
        rw [hget] at hres
        dsimp only at hres
        simp only [Except.error.injEq, ExecError.graphValidation.injEq] at hres
        refine ⟨hres.symm, ?_⟩
        rintro ⟨m, hm, -, -⟩
        simp at hm
    | other =>
        rw [hget] at hres
        dsimp only at hres
        simp only [Except.error.injEq, ExecError.graphValidation.injEq] at hres
        refine ⟨hres.symm, ?_⟩
        rintro ⟨m, hm, -, -⟩
        simp at hm
    | int m =>
        rw [hget] at hres
        dsimp only at hres
        by_cases hm : m < 1 ∨ 10 < m
        · rw [if_pos hm] at hres
          simp only [Except.error.injEq, ExecError.graphValidation.injEq] at hres
          refine ⟨hres.symm, ?_⟩
          rintro ⟨mm, hmm, h1, h10⟩
          simp only [Option.some.injEq, PyValue.int.injEq] at hmm
          omega
        · rw [if_neg hm] at hres
          exfalso
          cases outcome with
          | success payload =>
              cases payload with
              | obj fields =>
                  dsimp only [webSearchSearch] at hres
                  split at hres <;> exact Except.noConfusion hres
              | str s => dsimp only [webSearchSearch] at hres; simp at hres
              | int j => dsimp only [webSearchSearch] at hres; simp at hres
              | arr l => dsimp only [webSearchSearch] at hres; simp at hres
              | null => dsimp only [webSearchSearch] at hres; simp at hres
          | timeout => dsimp only [webSearchSearch] at hres; simp at hres
          | statusError sc body =>
              dsimp only [webSearchSearch] at hres
              by_cases hbt : body.trim ≠ ""
              · rw [if_pos hbt] at hres
                simp at hres
              · rw [if_neg hbt] at hres
                simp at hres
          | transportError => dsimp only [webSearchSearch] at hres; simp at hres
          | malformedJson => dsimp only [webSearchSearch] at hres; simp at hres

theorem web_search_max_results_rejected (outcome : SearchOutcome)
    (node_data : NodeData) (parent_values : List String) (input_value : String)
    (hq : buildQuery parent_values input_value ≠ "")
    (hna : ¬ ∃ m : Int, NodeData.get node_data "max_results" = some (.int m)
        ∧ 1 ≤ m ∧ m ≤ 10) :
    web_search_execute outcome node_data parent_values input_value
      = .error (.graphValidation
          "Web search node requires max_results to be an integer in [1, 10]") := by
  unfold web_search_execute
  dsimp only
  rw [if_neg hq]
  cases hget : NodeData.get node_data "max_results" with
  | none => rfl
  | some v =>
    cases v with
    | str s => rfl
    | other => rfl
    | int m =>
        dsimp only
        by_cases hm : m < 1 ∨ 10 < m
        · rw [if_pos hm]
        · exact absurd ⟨m, hget, by omega, by omega⟩ hna

theorem web_search_success_format (node_data : NodeData)
    (parent_values : List String) (input_value : String) (m : Int)
    (fields : List (String × Json))
    (hq : buildQuery parent_values input_value ≠ "")
    (hget : NodeData.get node_data "max_results" = some (.int m))
    (h1 : 1 ≤ m) (h10 : m ≤ 10) :
    web_search_execute (.success (.obj fields)) node_data parent_values
        input_value
      = (let query := buildQuery parent_values input_value
         let items := abstractItems (.obj fields)
            ++ extract_related_topics (Json.get (.obj fields) "RelatedTopics")
         if items = [] then .ok s!"No search results found for: {query}"
         else .ok (String.intercalate "\n"
            ((List.enumFrom 1 (items.take m.toNat)).map
              fun e => match e with
                | (index, text, some url) => s!"{index}. {text} ({url})"
                | (index, text, none) => s!"{index}. {text}"))) := by
  unfold web_search_execute
  dsimp only
  rw [if_neg hq, hget]
  dsimp only
  rw [if_neg (by omega : ¬(m < 1 ∨ 10 < m))]
  dsimp only [webSearchSearch]
  by_cases hempty : abstractItems (Json.obj fields)
      ++ extract_related_topics (Json.get (Json.obj fields) "RelatedTopics") = []
  · have hlines : (format_results (Json.obj fields) m).isEmpty = true := by
      unfold format_results searchItems
      rw [hempty]
      simp
    rw [if_pos hlines, if_pos hempty]
  · have hlines : ¬ (format_results (Json.obj fields) m).isEmpty = true := by
      unfold format_results searchItems
      intro hcon
      rw [List.isEmpty_iff, List.map_eq_nil_iff] at hcon
      have htake : (abstractItems (Json.obj fields)
          ++ extract_related_topics
            (Json.get (Json.obj fields) "RelatedTopics")).take m.toNat = [] := by
        cases htk : (abstractItems (Json.obj fields)
            ++ extract_related_topics
              (Json.get (Json.obj fields) "RelatedTopics")).take m.toNat with
        | nil => rfl
        | cons a l => rw [htk] at hcon; exact List.noConfusion hcon
      rw [List.take_eq_nil_iff] at htake
      rcases htake with h0 | h0
      · omega
      · exact hempty h0
    rw [if_neg hlines, if_neg hempty]
    unfold format_results searchItems
    refine congrArg _ (congrArg _ (List.map_congr_left ?_))
    rintro ⟨index, text, u⟩ -
    cases u <;> rfl

/-- **C9**: `WebSearchNodeHandler.execute` builds its query by
newline-joining and stripping the parent values, falling back to the
stripped input value; it fails with the empty-query validation error exactly
when that query is empty, and (for a non-empty query) with the max_results
validation error exactly when `node_data.max_results` is not an `int` in
`[1, 10]`; on a successful search with a valid configuration the result is
the sentinel `No search results found for: {query}` when the item list
(abstract first, then related topics) is empty, and otherwise the
newline-join of the items truncated to `max_results` and rendered as
`{index}. {text}` (with ` ({url})` appended when a url is present),
numbered from 1. -/
theorem c9_web_search_query_validation_and_format (outcome : SearchOutcome)
    (node_data : NodeData) (parent_values : List String)
    (input_value : String) :
    (web_search_execute outcome node_data parent_values input_value
        = .error (.graphValidation "Web search query is empty")
      ↔ buildQuery parent_values input_value = "")
  ∧ (buildQuery parent_values input_value ≠ "" →
      (web_search_execute outcome node_data parent_values input_value
          = .error (.graphValidation
            "Web search node requires max_results to be an integer in [1, 10]")
        ↔ ¬ ∃ m : Int, NodeData.get node_data "max_results" = some (.int m)
            ∧ 1 ≤ m ∧ m ≤ 10))
  ∧ (∀ (m : Int) (fields : List (String × Json)),
      buildQuery parent_values input_value ≠ "" →
      NodeData.get node_data "max_results" = some (.int m) →
      1 ≤ m → m ≤ 10 →
      web_search_execute (.success (.obj fields)) node_data parent_values
          input_value
        = (let query := buildQuery parent_values input_value
           let items := abstractItems (.obj fields)
              ++ extract_related_topics (Json.get (.obj fields) "RelatedTopics")
           if items = [] then .ok s!"No search results found for: {query}"
           else .ok (String.intercalate "\n"
              ((List.enumFrom 1 (items.take m.toNat)).map
                fun e => match e with
                  | (index, text, some url) => s!"{index}. {text} ({url})"
                  | (index, text, none) => s!"{index}. {text}")))) := by
  refine ⟨?_, ?_, ?_⟩
  · constructor
    · intro hres
      by_contra hq
      have hinv := web_search_graphValidation_inv outcome node_data
        parent_values input_value _ hq hres
      exact absurd hinv.1 (by decide)
    · intro hq0
      unfold web_search_execute
      dsimp only
      rw [if_pos hq0]
  · intro hq
    constructor
    · intro hres
      exact (web_search_graphValidation_inv outcome node_data parent_values
        input_value _ hq hres).2
    · intro hna
      exact web_search_max_results_rejected outcome node_data parent_values
        input_value hq hna
  · intro m fields hq hget h1 h10
    exact web_search_success_format node_data parent_values input_value m
      fields hq hget h1 h10

theorem c9_web_search_query_validation_and_format_witness :
    web_search_execute (.success (.obj [("AbstractText", Json.str "hello")]))
      [("max_results", PyValue.int 3)] ["hi"] "" = .ok "1. hello" := by
  have htrimhi : (String.intercalate "\n" ["hi"]).trim = "hi" := by
    show ("hi".trim) = "hi"
    unfold String.trim String.toSubstring Substring.trim
    unfold Substring.takeWhileAux Substring.takeRightWhileAux
    decide
  have htrimhello : ("hello".trim) = "hello" := by
    unfold String.trim String.toSubstring Substring.trim
    unfold Substring.takeWhileAux Substring.takeRightWhileAux
    decide
  have hbq : buildQuery ["hi"] "" = "hi" := by
    unfold buildQuery
    dsimp only
    rw [htrimhi, if_neg (by decide)]
  have h := (c9_web_search_query_validation_and_format
      (.success (.obj [("AbstractText", Json.str "hello")]))
      [("max_results", PyValue.int 3)] ["hi"] "").2.2 3
      [("AbstractText", Json.str "hello")]
      (by rw [hbq]; decide) rfl (by decide) (by decide)
  rw [h]
  have hsi : abstractItems (Json.obj [("AbstractText", Json.str "hello")])
      ++ extract_related_topics
        (Json.get (Json.obj [("AbstractText", Json.str "hello")])
          "RelatedTopics")
      = [("hello", none)] := by
    show (if "hello".trim = "" then ([] : List (String × Option String))
        else [("hello".trim, none)]) ++ [] = [("hello", none)]
    rw [htrimhello, if_neg (by decide)]
    rfl
  dsimp only
  rw [hsi]
  rw [if_neg (by decide)]
  rfl

/-! ### Related-topic extraction order -/

theorem filterMap_to_str_key_dict_of_obj (entries : List Json)
    (h : ∀ e ∈ entries, ∃ fields, e = .obj fields) :
    entries.filterMap to_str_key_dict = entries := by
  induction entries with
  | nil => rfl
  | cons e rest ih =>
      obtain ⟨fields, hf⟩ := h e (by simp)
      rw [List.filterMap_cons, hf]
      dsimp only [to_str_key_dict]
      rw [ih (fun x hx => h x (by simp [hx]))]

theorem extractTopicsLoop_leaf (stack : List Json)
    (h : ∀ e ∈ stack, isLeafEntry e) :
    ∀ items, extractTopicsLoop stack items = items ++ stack.map leafItem := by
  induction stack with
  | nil =>
      intro items
      rw [extractTopicsLoop.eq_def]
      simp
  | cons entry rest ih =>
      intro items
      obtain ⟨⟨fields, hf⟩, htop, t, htext, htne⟩ := h entry (by simp)
      have hrest : ∀ e ∈ rest, isLeafEntry e :=
        fun e he => h e (List.mem_cons_of_mem entry he)
      rw [extractTopicsLoop.eq_def]
      dsimp only
      split
      · next topics heq => rw [htop] at heq; exact Option.noConfusion heq
      · split
        · next text heq =>
            rw [htext] at heq
            have htEq : text = t := by simpa using heq.symm
            subst htEq
            rw [if_neg htne, ih hrest]
            have hleafEq : leafItem entry = (text.trim,
                match Json.get entry "FirstURL" with
                | some (.str first_url) =>
                    if first_url.trim = "" then none else some first_url.trim
                | _ => none) := by
              unfold leafItem
              rw [htext]
            rw [List.map_cons, hleafEq]
            simp
        · next hne =>
            exfalso
            exact hne t htext

/-- **C10** (implicit): for a `RelatedTopics` payload that is a flat list of
leaf entries (dicts with a non-blank `Text` and no `Topics` key), the
extraction of `_extract_related_topics` returns the entries' items in the
reverse of their payload order — the loop pops a stack seeded with the
list — so the item list assembled by `_format_results` is the abstract
followed by the reversed related topics, and truncation to `max_results`
keeps the last entries of the payload rather than the first. -/
theorem c10_related_topics_order_reversed (payload : Json)
    (entries : List Json)
    (hrt : Json.get payload "RelatedTopics" = some (.arr entries))
    (hleaf : ∀ e ∈ entries, isLeafEntry e) :
    extract_related_topics (Json.get payload "RelatedTopics")
        = (entries.map leafItem).reverse
    ∧ searchItems payload
        = abstractItems payload ++ (entries.map leafItem).reverse := by
  have hmain : extract_related_topics (Json.get payload "RelatedTopics")
      = (entries.map leafItem).reverse := by
    rw [hrt]
    show extractTopicsLoop (entries.filterMap to_str_key_dict).reverse []
      = (entries.map leafItem).reverse
    rw [filterMap_to_str_key_dict_of_obj entries (fun e he => (hleaf e he).1)]
    rw [extractTopicsLoop_leaf entries.reverse
      (fun e he => hleaf e (List.mem_reverse.mp he)) []]
    simp
  refine ⟨hmain, ?_⟩
  unfold searchItems
  rw [hmain]

theorem c10_related_topics_order_reversed_witness :
    extract_related_topics (Json.get
        (Json.obj [("RelatedTopics", Json.arr
          [Json.obj [("Text", Json.str "a")], Json.obj [("Text", Json.str "b")]])])
        "RelatedTopics")
      = [("b", none), ("a", none)] := by
  have ha : ("a".trim) = "a" := by
    unfold String.trim String.toSubstring Substring.trim
    unfold Substring.takeWhileAux Substring.takeRightWhileAux
    decide
  have hb : ("b".trim) = "b" := by
    unfold String.trim String.toSubstring Substring.trim
    unfold Substring.takeWhileAux Substring.takeRightWhileAux
    decide
  have h := (c10_related_topics_order_reversed
      (Json.obj [("RelatedTopics", Json.arr
        [Json.obj [("Text", Json.str "a")], Json.obj [("Text", Json.str "b")]])])
      [Json.obj [("Text", Json.str "a")], Json.obj [("Text", Json.str "b")]]
      rfl
      (by
        intro e he
        simp only [List.mem_cons, List.not_mem_nil, or_false] at he
        rcases he with rfl | rfl
        · exact ⟨⟨_, rfl⟩, rfl, "a", rfl, by rw [ha]; decide⟩
        · exact ⟨⟨_, rfl⟩, rfl, "b", rfl, by rw [hb]; decide⟩)).1
  rw [h]
  show [("b".trim, (none : Option String)), ("a".trim, none)]
    = [("b", none), ("a", none)]
  rw [ha, hb]

end GraphAI
